import Mathlib

/-!
Verification development for the ShapeIt hand-gesture shape editor.

The Python source is shallowly embedded over exact rationals:

* `app/input/features.py` — geometry utilities and the Ramer–Douglas–Peucker
  polyline simplification (`rdp`).
* `app/models/shapes.py` — the oriented-box / polyline shape model with
  per-frame smoothing towards target pose.
* `app/gestures/rules.py` — pose classification and pinch hysteresis.
* `app/state/controller.py` — the interaction state machine.

Floating-point arithmetic is modelled by `ℚ`.  Square roots and trigonometric
functions do not stay rational, so:

* distances that are only ever *compared* (against each other or a
  nonnegative threshold) are tracked squared, which preserves every strict
  comparison of nonnegative values; and
* the three helpers whose values feed the controller only as opaque numbers
  (`features.distance`, `features.angle_degrees`, `Shape2D.contains_point`)
  are abstracted into a `Geom` parameter, so the controller theorems hold for
  every interpretation of them.
-/

namespace ShapeIt

/-! ### Geometry utilities (`app/input/features.py`) -/

/-- `features.clamp(value, min_value, max_value)`:
`max(min_value, min(max_value, value))`. -/
def clamp (value minValue maxValue : ℚ) : ℚ :=
  max minValue (min maxValue value)

/-- `features.normalize_value(value, scale)`: `value / max(scale, 1e-6)`. -/
def normalize_value (value scale : ℚ) : ℚ :=
  value / max scale (1 / 1000000)

/-- `features.pinch_ratio(thumb_tip, index_tip, hand_scale)`, expressed in
terms of the already-computed thumb-to-index Euclidean distance `d`
(the source computes `d = distance(thumb_tip, index_tip)` and then
normalizes it). -/
def pinchRatioVal (d handScale : ℚ) : ℚ :=
  normalize_value d handScale

/-- Squared Euclidean distance between two points. -/
def distSq (a b : ℚ × ℚ) : ℚ :=
  (a.1 - b.1) ^ 2 + (a.2 - b.2) ^ 2

/-- `features._point_segment_distance(point, start, end)`, squared.
The source returns `math.hypot(...)`; every consumer compares the result
against another distance or a nonnegative epsilon, so the square (which is
rational) carries the same information. -/
def psDistSq (p s e : ℚ × ℚ) : ℚ :=
  let dx := e.1 - s.1
  let dy := e.2 - s.2
  if dx = 0 ∧ dy = 0 then distSq p s
  else
    let t := clamp (((p.1 - s.1) * dx + (p.2 - s.2) * dy) / (dx * dx + dy * dy)) 0 1
    (p.1 - (s.1 + t * dx)) ^ 2 + (p.2 - (s.2 + t * dy)) ^ 2

/-- The interior points of a polyline: everything but the first and the last
point (the source iterates `for i in range(1, len(points) - 1)`). -/
def interior (l : List (ℚ × ℚ)) : List (ℚ × ℚ) :=
  (l.drop 1).dropLast

/-- The scanning loop of `features.rdp`: walk the interior points, keeping the
index of the point farthest from the chord `(s, e)`.  The source keeps
`max_dist = -1.0` as a sentinel, modelled here as `none`; distances are
tracked squared, and the update test `dist > max_dist` becomes
`none ↦ true` (every squared distance beats the `-1.0` sentinel) or a strict
comparison of squares. -/
def bestSplitAux (s e : ℚ × ℚ) : List (ℚ × ℚ) → ℕ → Option ℚ × ℕ → Option ℚ × ℕ
  | [], _, acc => acc
  | p :: rest, i, acc =>
    let dSq := psDistSq p s e
    let better : Bool :=
      match acc.1 with
      | none => true
      | some m => decide (m < dSq)
    bestSplitAux s e rest (i + 1) (if better then (some dSq, i) else acc)

/-- The farthest interior point from the chord, as (squared distance, index),
starting the scan at index `1` exactly as the source loop does. -/
def bestSplit (pts : List (ℚ × ℚ)) (s e : ℚ × ℚ) : Option ℚ × ℕ :=
  bestSplitAux s e (interior pts) 1 (none, 0)

/-- `features.rdp(points, epsilon)` with an explicit structural-recursion
fuel; the Python recursion terminates because both recursive sublists are
strictly shorter, and `rdp` below instantiates the fuel with the list
length, which always suffices (`rdpF_congr`).  `eps` is the source epsilon;
the split test `max_dist > epsilon` on Euclidean distances becomes
`eps < 0 ∨ eps ^ 2 < m` on the squared maximum `m`, which is equivalent
because the maximum distance is nonnegative.  The `(none, _)` branch is
unreachable for lists of length ≥ 3 (the interior is nonempty, so the scan
always produces `some`). -/
def rdpF : ℕ → List (ℚ × ℚ) → ℚ → List (ℚ × ℚ)
  | 0, pts, _ => pts
  | fuel + 1, pts, eps =>
    if pts.length < 3 then pts
    else
      let s := pts.headD (0, 0)
      let e := pts.getLastD (0, 0)
      match bestSplit pts s e with
      | (none, _) => [s, e]
      | (some m, idx) =>
        if eps < 0 ∨ eps ^ 2 < m then
          (rdpF fuel (pts.take (idx + 1)) eps).dropLast ++ rdpF fuel (pts.drop idx) eps
        else [s, e]

/-- `features.rdp(points, epsilon)`. -/
def rdp (pts : List (ℚ × ℚ)) (eps : ℚ) : List (ℚ × ℚ) :=
  rdpF pts.length pts eps

/-! ### Shape model (`app/models/shapes.py`) -/

/-- `SMOOTHING = 0.35`. -/
def SMOOTHING : ℚ := 7 / 20

/-- `shapes._normalize_angle(delta)`: two sequential conditional shifts by
360 (the source docstring says "normalize to `[-180, 180]`"). -/
def normalize_angle (delta : ℚ) : ℚ :=
  let d := if delta > 180 then delta - 360 else delta
  if d < -180 then d + 360 else d

/-- Python's `x % 360.0` for floats: the representative of `x` modulo 360
in `[0, 360)` (Python `%` takes the sign of the divisor). -/
def wrap360 (x : ℚ) : ℚ :=
  x - 360 * ⌊x / 360⌋

/-- The `Shape2D` dataclass (oriented box). -/
structure Shape2D where
  center : ℚ × ℚ
  size : ℚ
  color : ℕ × ℕ × ℕ
  angle : ℚ
  target_center : ℚ × ℚ
  target_size : ℚ
  target_angle : ℚ
  is_selected : Bool
deriving DecidableEq, Repr

/-- `Shape2D(center=c, size=s, color=col)`: the dataclass constructor with
`__post_init__` defaulting each target to the current value. -/
def mkShape2D (center : ℚ × ℚ) (size : ℚ) (color : ℕ × ℕ × ℕ) : Shape2D :=
  { center := center, size := size, color := color, angle := 0,
    target_center := center, target_size := size, target_angle := 0,
    is_selected := false }

/-- `Shape2D.update`: move `center`, `size`, `angle` a `SMOOTHING` fraction
towards their targets; the angle delta goes through `_normalize_angle` and
the result is wrapped by `% 360.0`. -/
def Shape2D.update (s : Shape2D) : Shape2D :=
  { s with
    center := (s.center.1 + (s.target_center.1 - s.center.1) * SMOOTHING,
               s.center.2 + (s.target_center.2 - s.center.2) * SMOOTHING),
    size := s.size + (s.target_size - s.size) * SMOOTHING,
    angle := wrap360 (s.angle + normalize_angle (s.target_angle - s.angle) * SMOOTHING) }

/-- The `PolylineShape` dataclass. -/
structure PolylineShape where
  points : List (ℚ × ℚ)
  color : ℕ × ℕ × ℕ
  thickness : ℕ
  tolerance : ℚ
  is_selected : Bool
deriving DecidableEq, Repr

/-- A member of `Controller.shapes`: either an oriented box or a polyline
(the source list is heterogeneous and discriminated with `isinstance`). -/
inductive Shape
  | box : Shape2D → Shape
  | poly : PolylineShape → Shape
deriving DecidableEq, Repr

/-- Per-frame interpolation of one shape, as done by `Controller.render`:
`Shape2D.update` smooths towards the targets, `PolylineShape.update` is a
no-op. -/
def Shape.update : Shape → Shape
  | .box b => .box b.update
  | .poly p => .poly p

/-- Set the `is_selected` flag of a shape. -/
def Shape.setSelected : Shape → Bool → Shape
  | .box b, v => .box { b with is_selected := v }
  | .poly p, v => .poly { p with is_selected := v }

/-! ### Gesture interpreter (`app/gestures/rules.py`) -/

/-- `PINCH_START = 0.35`. -/
def PINCH_START : ℚ := 7 / 20

/-- `PINCH_END = 0.45`. -/
def PINCH_END : ℚ := 9 / 20

/-- A keypoint frame: the fixed 21-landmark hand, one 2-D position each. -/
def Pts : Type := Fin 21 → ℚ × ℚ

/-- `GestureInterpreter._finger_up`: `points[tip][1] < points[pip][1]`. -/
def fingerUp (p : Pts) (tip pip : Fin 21) : Bool :=
  decide ((p tip).2 < (p pip).2)

/-- `is_open_palm = index_up and middle_up and ring_up and pinky_up`. -/
def openPalm (p : Pts) : Bool :=
  fingerUp p 8 6 && fingerUp p 12 10 && fingerUp p 16 14 && fingerUp p 20 18

/-- `is_pointing = index_up and not middle_up and not ring_up and not pinky_up`. -/
def pointing (p : Pts) : Bool :=
  fingerUp p 8 6 && !fingerUp p 12 10 && !fingerUp p 16 14 && !fingerUp p 20 18

/-- `is_three_finger = index_up and middle_up and ring_up and not pinky_up`
(aliased as `is_draw_gesture`). -/
def threeFinger (p : Pts) : Bool :=
  fingerUp p 8 6 && fingerUp p 12 10 && fingerUp p 16 14 && !fingerUp p 20 18

/-- One frame of the pinch hysteresis (Schmitt trigger) in
`GestureInterpreter.compute`: not pinching and ratio below `PINCH_START`
starts a pinch; pinching and ratio above `PINCH_END` ends it; otherwise the
flag is held. -/
def pinchStep (pinching : Bool) (ratio : ℚ) : Bool :=
  if ¬ pinching ∧ ratio < PINCH_START then true
  else if pinching ∧ ratio > PINCH_END then false
  else pinching

/-! ### Interaction controller (`app/state/controller.py`) -/

/-- The interaction modes (`app/state/modes.py` constants). -/
inductive Mode
  | IDLE
  | CREATE
  | TRANSFORM
  | DRAW
deriving DecidableEq, Repr

/-- The three persistent-gesture labels of `Controller._maybe_switch_mode`
(the source uses the strings `"open_palm"`, `"pointing"`, `"draw"`). -/
inductive GLabel
  | open_palm
  | pointing
  | draw
deriving DecidableEq, Repr

/-- The gesture signal set as the controller consumes it: `gestures.get(k)`
with boolean keys (absent ↦ falsy) and the float `pinch_ratio` key
(absent ↦ `None`, hence an `Option`; the field is named `pinch_ratio_v`). -/
structure GestureSet where
  is_open_palm : Bool
  is_pointing : Bool
  is_draw_gesture : Bool
  is_draw_active : Bool
  is_exit_gesture : Bool
  is_pinching : Bool
  is_two_finger_point : Bool
  pinch_ratio_v : Option ℚ
deriving DecidableEq, Repr

/-- A gesture set with every signal absent/false. -/
def GestureSet.none : GestureSet :=
  { is_open_palm := false, is_pointing := false, is_draw_gesture := false,
    is_draw_active := false, is_exit_gesture := false, is_pinching := false,
    is_two_finger_point := false, pinch_ratio_v := Option.none }

/-- The float helpers of the controller whose exact values involve square
roots or trigonometry: `features.distance`, `features.angle_degrees` and the
rotated hit test `Shape2D.contains_point`.  The controller only pipes their
results around, so they are abstracted as parameters and every controller
theorem holds for all interpretations. -/
structure Geom where
  dist : ℚ × ℚ → ℚ × ℚ → ℚ
  angle_degrees : ℚ × ℚ → ℚ × ℚ → ℚ
  containsPoint : Shape2D → ℚ × ℚ → Bool

/-- A trivial interpretation of the abstracted geometry, used to run the
controller on concrete inputs. -/
def G0 : Geom :=
  { dist := fun _ _ => 0, angle_degrees := fun _ _ => 0,
    containsPoint := fun _ _ => false }

/-- The mutable state of a `Controller` instance.  `selected_shape` is an
object reference in the source; here it is an index into `shapes`. -/
structure CState where
  mode : Mode
  shapes : List Shape
  selected : Option ℕ
  lastGesture : Option GLabel
  gestureFrames : ℕ
  frameIndex : ℤ
  lastModeSwitchFrame : ℤ
  grab_offset : Option (ℚ × ℚ)
  base_size : Option ℚ
  base_pinch : Option ℚ
  base_shape_angle : Option ℚ
  base_finger_angle : Option ℚ
  current_stroke : List (ℚ × ℚ)
  is_drawing : Bool
deriving DecidableEq, Repr

/-- `Controller.__init__(screen_width, screen_height)`: IDLE, one centered
default box, cooldown primed so that the first switch is not blocked
(`_last_mode_switch_frame = -30`). -/
def initState (w h : ℚ) : CState :=
  { mode := .IDLE,
    shapes := [.box (mkShape2D (w / 2, h / 2) 150 (255, 100, 50))],
    selected := Option.none,
    lastGesture := Option.none,
    gestureFrames := 0,
    frameIndex := 0,
    lastModeSwitchFrame := -30,
    grab_offset := Option.none,
    base_size := Option.none,
    base_pinch := Option.none,
    base_shape_angle := Option.none,
    base_finger_angle := Option.none,
    current_stroke := [],
    is_drawing := false }

/-- Pointwise addition on 2-D points (`numpy` array addition). -/
def padd (a b : ℚ × ℚ) : ℚ × ℚ := (a.1 + b.1, a.2 + b.2)

/-- Pointwise subtraction on 2-D points (`numpy` array subtraction). -/
def psub (a b : ℚ × ℚ) : ℚ × ℚ := (a.1 - b.1, a.2 - b.2)

/-- Python float truthiness of an optional float: `None` and `0.0` are
falsy (used by `if self.base_pinch:`). -/
def qTruthy : Option ℚ → Bool
  | Option.none => false
  | some x => decide (x ≠ 0)

/-- Replace the element at an index, leaving the list unchanged when the
index is out of range (models mutating the referenced object in place). -/
def listSet : List Shape → ℕ → Shape → List Shape
  | [], _, _ => []
  | _ :: l, 0, x => x :: l
  | a :: l, n + 1, x => a :: listSet l n x

/-- The persistent-gesture label of `Controller._maybe_switch_mode`:
priority order open palm → pointing → draw (from the raw
`is_draw_gesture`), first match wins. -/
def persistentLabel (g : GestureSet) : Option GLabel :=
  if g.is_open_palm then some .open_palm
  else if g.is_pointing then some .pointing
  else if g.is_draw_gesture then some .draw
  else Option.none

/-- The mode a persistent-gesture label toggles towards. -/
def targetMode : GLabel → Mode
  | .open_palm => .CREATE
  | .pointing => .TRANSFORM
  | .draw => .DRAW

/-- `Controller._deselect`: drop the selection flag of the selected shape and
clear the selection and every transform baseline. -/
def deselect (s : CState) : CState :=
  let shapes :=
    match s.selected with
    | some i =>
      match s.shapes.get? i with
      | some sh => listSet s.shapes i (sh.setSelected false)
      | Option.none => s.shapes
    | Option.none => s.shapes
  { s with shapes := shapes,
           selected := Option.none,
           grab_offset := Option.none,
           base_size := Option.none,
           base_pinch := Option.none,
           base_shape_angle := Option.none,
           base_finger_angle := Option.none }

/-- `Controller._end_stroke`: finalize the in-progress stroke.  An empty
stroke just clears the drawing flag; a short stroke (< 5 points) is
discarded and the mode returns to IDLE; otherwise the stroke is simplified
with `rdp(…, epsilon=4.0)` and committed as a polyline, returning to IDLE. -/
def endStroke (s : CState) : CState :=
  if s.current_stroke = [] then { s with is_drawing := false }
  else
    let pts := s.current_stroke
    let s := { s with current_stroke := [], is_drawing := false }
    if pts.length < 5 then { s with mode := .IDLE }
    else
      { s with
        shapes := s.shapes ++
          [.poly { points := rdp pts 4, color := (0, 0, 255), thickness := 3,
                   tolerance := 8, is_selected := false }],
        mode := .IDLE }

/-- `Controller._toggle_mode(target_mode)`: entering the active mode returns
to IDLE, otherwise switch to the target; then deselect unless the new mode
is TRANSFORM, and finalize the stroke unless the new mode is DRAW (note
`_end_stroke` itself may move the mode to IDLE when a stroke was pending). -/
def toggleMode (s : CState) (target : Mode) : CState :=
  let s := { s with mode := if s.mode = target then .IDLE else target }
  let s := if s.mode ≠ .TRANSFORM then deselect s else s
  if s.mode ≠ .DRAW then endStroke s else s

/-- `GESTURE` debounce threshold `Controller._debounce_frames = 10`. -/
def DEBOUNCE_FRAMES : ℕ := 10

/-- `Controller._mode_cooldown_frames = 30`. -/
def MODE_COOLDOWN_FRAMES : ℤ := 30

/-- `Controller._maybe_switch_mode(gestures)`: compute the persistent label,
reset the hold counter when it changed, bail out on no label, increment the
counter, and fire a toggle once the counter reaches the debounce threshold
and the cooldown since the last switch has elapsed. -/
def maybeSwitchMode (s : CState) (g : GestureSet) : CState :=
  let persistent := persistentLabel g
  let s :=
    if persistent ≠ s.lastGesture then
      { s with lastGesture := persistent, gestureFrames := 0 }
    else s
  match persistent with
  | Option.none => s
  | some lbl =>
    let s := { s with gestureFrames := s.gestureFrames + 1 }
    if s.gestureFrames ≥ DEBOUNCE_FRAMES ∧
        s.frameIndex - s.lastModeSwitchFrame ≥ MODE_COOLDOWN_FRAMES then
      let s := toggleMode s (targetMode lbl)
      { s with lastModeSwitchFrame := s.frameIndex, gestureFrames := 0 }
    else s

/-- `Controller._handle_create_mode`: on a pinch, spawn a default box at the
index fingertip unless an existing box already covers that point within its
size radius; after a spawn return to IDLE. -/
def handleCreateMode (G : Geom) (s : CState) (g : GestureSet) (p : Pts) : CState :=
  if ¬ g.is_pinching then s
  else
    let index_tip := p 8
    if s.shapes.any fun sh =>
        match sh with
        | .box b => decide (G.dist b.center index_tip < b.size)
        | .poly _ => false then s
    else
      { s with shapes := s.shapes ++ [.box (mkShape2D index_tip 100 (0, 165, 255))],
               mode := .IDLE }

/-- The reversed hit-test loop of `Controller._handle_transform_mode`: scan
the shapes from topmost (last) to bottommost, returning the first `Shape2D`
containing the point — i.e. the last matching index in list order. -/
def findHitAux (G : Geom) (pt : ℚ × ℚ) :
    List Shape → ℕ → Option (ℕ × Shape2D) → Option (ℕ × Shape2D)
  | [], _, acc => acc
  | sh :: rest, i, acc =>
    let acc' :=
      match sh with
      | .box b => if G.containsPoint b pt then some (i, b) else acc
      | .poly _ => acc
    findHitAux G pt rest (i + 1) acc'

/-- Topmost box containing the point, with its index. -/
def findHit (G : Geom) (shapes : List Shape) (pt : ℚ × ℚ) : Option (ℕ × Shape2D) :=
  findHitAux G pt shapes 0 Option.none

/-- `Controller._select_shape(shape, points, gestures)`: clear every
selection flag, select the hit shape, and snapshot the transform baseline
(grab offset against the middle-finger MCP anchor `points[9]`, base size,
base pinch from `gestures.get("pinch_ratio")`, base shape angle, base
finger angle from `angle_degrees(points[8], points[12])`). -/
def selectShape (G : Geom) (s : CState) (i : ℕ) (b : Shape2D) (p : Pts)
    (g : GestureSet) : CState :=
  let shapes := listSet (s.shapes.map (Shape.setSelected · false)) i
    (.box { b with is_selected := true })
  let anchor := p 9
  { s with shapes := shapes,
           selected := some i,
           grab_offset := some (psub b.center anchor),
           base_size := some b.size,
           base_pinch := g.pinch_ratio_v,
           base_shape_angle := some b.angle,
           base_finger_angle := some (G.angle_degrees (p 8) (p 12)) }

/-- `Controller._apply_transform(gestures, points)`: track the anchor plus
grab offset, scale against the pinch baseline when `base_pinch` is truthy
and the current ratio is non-negligible, and rotate while the two-finger
point holds (re-anchoring the finger-angle baseline on re-entry).  The
`getD 0` defaults totalize reads the source performs only when the paired
baseline field is set (they are always set together, see the C9
invariant). -/
def applyTransform (G : Geom) (s : CState) (g : GestureSet) (p : Pts) : CState :=
  match s.selected with
  | Option.none => s
  | some i =>
    match s.shapes.get? i with
    | some (.box b0) =>
      let anchor := p 9
      let b1 := { b0 with target_center := padd anchor (s.grab_offset.getD (0, 0)) }
      let pr := g.pinch_ratio_v.getD 0
      let b2 :=
        if qTruthy s.base_pinch ∧ pr > 1 / 1000000 then
          let ts := clamp (s.base_size.getD 0 * (s.base_pinch.getD 0 / pr)) 20 600
          { b1 with target_size := ts }
        else b1
      if g.is_two_finger_point then
        let finger_angle := G.angle_degrees (p 8) (p 12)
        let bfa := s.base_finger_angle.getD finger_angle
        let bsa :=
          match s.base_finger_angle with
          | Option.none => b0.angle
          | some _ => s.base_shape_angle.getD 0
        let b3 := { b2 with target_angle := bsa + (finger_angle - bfa) }
        { s with shapes := listSet s.shapes i (.box b3),
                 base_finger_angle := some bfa,
                 base_shape_angle := some bsa }
      else
        { s with shapes := listSet s.shapes i (.box b2),
                 base_finger_angle := Option.none,
                 base_shape_angle := some b0.angle }
    | _ => s

/-- `Controller._handle_transform_mode`: with no selection, a pinch hit-tests
from topmost to bottommost and selects the first hit; with a selection,
releasing both pinch and two-finger point deselects, otherwise the
transform is applied. -/
def handleTransformMode (G : Geom) (s : CState) (g : GestureSet) (p : Pts) : CState :=
  match s.selected with
  | Option.none =>
    if ¬ g.is_pinching then s
    else
      match findHit G s.shapes (p 8) with
      | some (i, b) => selectShape G s i b p g
      | Option.none => s
  | some _ =>
    if ¬ g.is_pinching ∧ ¬ g.is_two_finger_point then deselect s
    else applyTransform G s g p

/-- `STROKE_MIN_STEP = 5.0`, squared (the source compares a Euclidean norm
against it; both sides are nonnegative). -/
def STROKE_MIN_STEP_SQ : ℚ := 25

/-- `Controller._handle_draw_mode`: gated by the raw `is_draw_gesture`
signal.  Rising edge seeds a stroke at the index fingertip; while active,
points at least `STROKE_MIN_STEP` away from the last recorded point are
appended; a falling edge finalizes via `_end_stroke`. -/
def handleDrawMode (s : CState) (g : GestureSet) (p : Pts) : CState :=
  let draw_active := g.is_draw_gesture
  let index_tip := p 8
  if draw_active ∧ ¬ s.is_drawing then
    { s with is_drawing := true, current_stroke := [index_tip] }
  else if draw_active ∧ s.is_drawing then
    match s.current_stroke.getLast? with
    | some last_pt =>
      if distSq index_tip last_pt ≥ STROKE_MIN_STEP_SQ then
        { s with current_stroke := s.current_stroke ++ [index_tip] }
      else s
    | Option.none => s
  else if s.is_drawing ∧ ¬ draw_active then endStroke s
  else s

/-- `Controller.update(gestures, points)`: advance the frame counter; a
`None` gesture set or keypoint frame (no-hand tick) ends the tick there;
otherwise run mode-switch detection and then the handler of the (possibly
new) mode. -/
def updateC (G : Geom) (s : CState) (g? : Option GestureSet) (p? : Option Pts) :
    CState :=
  let s := { s with frameIndex := s.frameIndex + 1 }
  match g?, p? with
  | some g, some p =>
    let s := maybeSwitchMode s g
    match s.mode with
    | .IDLE => deselect s
    | .CREATE => handleCreateMode G s g p
    | .TRANSFORM => handleTransformMode G s g p
    | .DRAW => handleDrawMode s g p
  | _, _ => s

/-- A run of hand-present ticks. -/
def runC (G : Geom) (s : CState) (frames : List (GestureSet × Pts)) : CState :=
  frames.foldl (fun s fp => updateC G s (some fp.1) (some fp.2)) s

/-- The state-relevant effect of `Controller.render(frame)`: every shape is
interpolated one step towards its targets (drawing to the video frame is
external). -/
def renderTick (s : CState) : CState :=
  { s with shapes := s.shapes.map Shape.update }

/-! ### Derived notions used by the theorems -/

/-- The target size of the shape stored at an index, when it is a box. -/
def targetSizeAt (s : CState) (i : ℕ) : Option ℚ :=
  match s.shapes.get? i with
  | some (.box b) => some b.target_size
  | _ => Option.none

/-- Controller states reachable from a freshly constructed controller by any
sequence of `update` calls (with arbitrary gesture sets and keypoints,
including no-hand ticks). -/
inductive Reachable (G : Geom) : CState → Prop
  | init : ∀ w h, Reachable G (initState w h)
  | step : ∀ s g? p?, Reachable G s → Reachable G (updateC G s g? p?)

/-- The C9 invariant: a selection exists only in TRANSFORM mode, and with no
selection every transform-baseline field is cleared. -/
def SelInv (s : CState) : Prop :=
  (s.selected.isSome → s.mode = .TRANSFORM) ∧
  (s.selected = Option.none →
    s.grab_offset = Option.none ∧ s.base_size = Option.none ∧
    s.base_pinch = Option.none ∧ s.base_shape_angle = Option.none ∧
    s.base_finger_angle = Option.none)

/-- Stroke-consistency facts used for the mode-switch theorem (all hold in
every reachable state): a nonempty stroke means a drawing is in progress,
a drawing is only in progress in DRAW mode, and while in DRAW mode a
pose-hold of open palm or pointing (which is never a draw gesture, see
`poses_exclusive`) has already finalized any drawing on its first frame. -/
def StrokeInv (s : CState) : Prop :=
  (s.current_stroke ≠ [] → s.is_drawing = true) ∧
  (s.is_drawing = true → s.mode = .DRAW) ∧
  (s.mode = .DRAW → 1 ≤ s.gestureFrames →
    (s.lastGesture = some .open_palm ∨ s.lastGesture = some .pointing) →
    s.is_drawing = false)

/-- Gesture sets whose pose booleans are consistent with the interpreter:
an open palm or a pointing pose is never simultaneously the three-finger
draw pose (`poses_exclusive` shows the interpreter guarantees this). -/
def ConsistentPoses (g : GestureSet) : Prop :=
  (g.is_open_palm = true ∨ g.is_pointing = true) → g.is_draw_gesture = false

/-- Length of the trailing run of equal persistent-gesture labels in a
sequence of gesture frames, together with the last label (compare
`Controller._maybe_switch_mode`, which resets its hold counter whenever the
label changes). -/
def lrStep (acc : Option GLabel × ℕ) (g : GestureSet) : Option GLabel × ℕ :=
  if persistentLabel g = acc.1 then (persistentLabel g, acc.2 + 1)
  else (persistentLabel g, 1)

def labelRun (gs : List GestureSet) : Option GLabel × ℕ :=
  gs.foldl lrStep (Option.none, 0)

/-- Claim-side angle normalization, modelled from the specification words
"normalized to the shortest signed value in the range (−180, 180]": the
unique representative of the delta modulo 360 lying in `(-180, 180]`. -/
def specNormIoc (d : ℚ) : ℚ :=
  d - 360 * ⌈(d - 180) / 360⌉

/-! ### Concrete inputs for the evaluation and witness theorems -/

/-- All keypoints at the origin. -/
def p0 : Pts := fun _ => (0, 0)

/-- A gesture set reporting only the debounced exit gesture (three
consecutive fist frames), as the interpreter emits it: a fist raises no
finger, so no pose label is active. -/
def gExit : GestureSet := { GestureSet.none with is_exit_gesture := true }

/-- A gesture set reporting an open palm. -/
def gPalm : GestureSet := { GestureSet.none with is_open_palm := true }

/-- A gesture set reporting a raw three-finger frame that the debouncer has
not yet accepted (`is_draw_gesture` true, `is_draw_active` false: exactly
what `GestureInterpreter.compute` emits on the first misdetected frame). -/
def gRawDraw : GestureSet := { GestureSet.none with is_draw_gesture := true }

/-- TRANSFORM state with a selection whose recorded base pinch is `0.0`
(a pinch with coinciding thumb and index tips records `pinch_ratio = 0`). -/
def sBasePinchZero : CState :=
  { initState 1280 720 with
      mode := .TRANSFORM, selected := some 0, base_pinch := some 0,
      base_size := some 100 }

/-- A pinching frame with current `pinch_ratio = 1/2`. -/
def gHalfPinch : GestureSet :=
  { GestureSet.none with is_pinching := true, pinch_ratio_v := some (1 / 2) }

/-- The oriented box of the angle counterexample: current angle 180,
target angle 0 (a delta of exactly −180). -/
def bAngle180 : Shape2D :=
  { center := (0, 0), size := 100, color := (0, 0, 0), angle := 180,
    target_center := (0, 0), target_size := 100, target_angle := 0,
    is_selected := false }

/-- IDLE state primed to fire a pose switch on the next open-palm frame:
the label has been held for 9 frames and the cooldown has elapsed. -/
def sFire : CState :=
  { initState 1280 720 with
      lastGesture := some .open_palm, gestureFrames := 9,
      frameIndex := 40, lastModeSwitchFrame := 0 }

/-- TRANSFORM state matching the specification's worked example: selection
with `base_size = 100` and `base_pinch = 0.5`. -/
def sBaseHalf : CState :=
  { initState 1280 720 with
      mode := .TRANSFORM, selected := some 0, base_pinch := some (1 / 2),
      base_size := some 100 }

/-- A pinching frame with current `pinch_ratio = 1/4`. -/
def gQuarterPinch : GestureSet :=
  { GestureSet.none with is_pinching := true, pinch_ratio_v := some (1 / 4) }

/-! ### Helper lemmas -/

theorem listSet_get?_self {l : List Shape} {i : ℕ} {y : Shape} (x : Shape)
    (h : l.get? i = some y) : (listSet l i x).get? i = some x := by
  induction l generalizing i with
  | nil => simp at h
  | cons a l ih =>
    cases i with
    | zero => simp [listSet]
    | succ n => simpa [listSet] using ih (by simpa using h)

/-- The interpreter's pose booleans are mutually consistent: an open palm
(all four fingers up) or a pointing pose (index only) can never be the
three-finger draw pose in the same frame. -/
theorem poses_exclusive (p : Pts) :
    openPalm p = true ∨ pointing p = true → threeFinger p = false := by
  rintro (h | h) <;>
    simp only [openPalm, pointing, threeFinger, Bool.and_eq_true,
      Bool.not_eq_true'] at h ⊢ <;>
    simp [h]

theorem endStroke_fields (s : CState) :
    (endStroke s).selected = s.selected ∧
    (endStroke s).grab_offset = s.grab_offset ∧
    (endStroke s).base_size = s.base_size ∧
    (endStroke s).base_pinch = s.base_pinch ∧
    (endStroke s).base_shape_angle = s.base_shape_angle ∧
    (endStroke s).base_finger_angle = s.base_finger_angle := by
  by_cases h1 : s.current_stroke = []
  · simp [endStroke, h1]
  · by_cases h2 : s.current_stroke.length < 5 <;> simp [endStroke, h1, h2]

theorem deselect_mode (s : CState) : (deselect s).mode = s.mode := by
  simp [deselect]

theorem selInv_of_fields {s s' : CState} (h : SelInv s)
    (hm : s'.mode = s.mode) (hsel : s'.selected = s.selected)
    (h1 : s'.grab_offset = s.grab_offset) (h2 : s'.base_size = s.base_size)
    (h3 : s'.base_pinch = s.base_pinch) (h4 : s'.base_shape_angle = s.base_shape_angle)
    (h5 : s'.base_finger_angle = s.base_finger_angle) : SelInv s' := by
  unfold SelInv at h ⊢
  rw [hm, hsel, h1, h2, h3, h4, h5]
  exact h

theorem selInv_deselect (s : CState) : SelInv (deselect s) := by
  constructor
  · intro h
    simp [deselect] at h
  · intro _
    simp [deselect]

theorem selInv_endStroke {s : CState} (h : SelInv s)
    (hsel : s.selected = Option.none) : SelInv (endStroke s) := by
  obtain ⟨f0, f1, f2, f3, f4, f5⟩ := endStroke_fields s
  obtain ⟨g1, g2, g3, g4, g5⟩ := h.2 hsel
  constructor
  · intro hs
    rw [f0, hsel] at hs
    simp at hs
  · intro _
    rw [f1, f2, f3, f4, f5]
    exact ⟨g1, g2, g3, g4, g5⟩

theorem selInv_none_of_mode {s : CState} (h : SelInv s)
    (hm : s.mode ≠ Mode.TRANSFORM) : s.selected = Option.none := by
  cases hs : s.selected with
  | none => rfl
  | some i =>
    exact absurd (h.1 (by simp [hs])) hm

theorem selInv_toggle {s : CState} (h : SelInv s) (target : Mode) :
    SelInv (toggleMode s target) := by
  by_cases he : s.mode = target
  · have heq : toggleMode s target =
        endStroke (deselect { s with mode := Mode.IDLE }) := by
      simp [toggleMode, he, deselect_mode]
    rw [heq]
    exact selInv_endStroke (selInv_deselect _) (by simp [deselect])
  · cases target with
    | IDLE =>
      have heq : toggleMode s Mode.IDLE =
          endStroke (deselect { s with mode := Mode.IDLE }) := by
        simp [toggleMode, he, deselect_mode]
      rw [heq]
      exact selInv_endStroke (selInv_deselect _) (by simp [deselect])
    | CREATE =>
      have heq : toggleMode s Mode.CREATE =
          endStroke (deselect { s with mode := Mode.CREATE }) := by
        simp [toggleMode, he, deselect_mode]
      rw [heq]
      exact selInv_endStroke (selInv_deselect _) (by simp [deselect])
    | TRANSFORM =>
      have hsel : s.selected = Option.none := selInv_none_of_mode h he
      have heq : toggleMode s Mode.TRANSFORM =
          endStroke { s with mode := Mode.TRANSFORM } := by
        simp [toggleMode, he, deselect_mode]
      rw [heq]
      exact selInv_endStroke ⟨fun _ => rfl, fun _ => h.2 hsel⟩ hsel
    | DRAW =>
      have heq : toggleMode s Mode.DRAW =
          deselect { s with mode := Mode.DRAW } := by
        simp [toggleMode, he, deselect_mode]
      rw [heq]
      exact selInv_deselect _

theorem maybeSwitchMode_eq_none {s : CState} {g : GestureSet}
    (hl : persistentLabel g = Option.none) :
    maybeSwitchMode s g =
      (if Option.none ≠ s.lastGesture then
        { s with lastGesture := Option.none, gestureFrames := 0 } else s) := by
  unfold maybeSwitchMode
  rw [hl]

theorem maybeSwitchMode_eq_some {s : CState} {g : GestureSet} {lbl : GLabel}
    {t : CState} (hl : persistentLabel g = some lbl)
    (ht : (if some lbl ≠ s.lastGesture then
      { s with lastGesture := some lbl, gestureFrames := 0 } else s) = t) :
    maybeSwitchMode s g =
      (if t.gestureFrames + 1 ≥ DEBOUNCE_FRAMES ∧
          t.frameIndex - t.lastModeSwitchFrame ≥ MODE_COOLDOWN_FRAMES then
        { toggleMode { t with gestureFrames := t.gestureFrames + 1 } (targetMode lbl) with
            lastModeSwitchFrame :=
              (toggleMode { t with gestureFrames := t.gestureFrames + 1 }
                (targetMode lbl)).frameIndex,
            gestureFrames := 0 }
      else { t with gestureFrames := t.gestureFrames + 1 }) := by
  subst ht
  unfold maybeSwitchMode
  rw [hl]

theorem selInv_set_last {u : CState} (h : SelInv u) (l : Option GLabel) :
    SelInv { u with lastGesture := l, gestureFrames := 0 } :=
  selInv_of_fields h rfl rfl rfl rfl rfl rfl rfl

theorem selInv_inc_counter {u : CState} (h : SelInv u) :
    SelInv { u with gestureFrames := u.gestureFrames + 1 } :=
  selInv_of_fields h rfl rfl rfl rfl rfl rfl rfl

theorem selInv_reset_counters {u : CState} (h : SelInv u) (a : ℤ) :
    SelInv { u with lastModeSwitchFrame := a, gestureFrames := 0 } :=
  selInv_of_fields h rfl rfl rfl rfl rfl rfl rfl

theorem selInv_maybeSwitch {s : CState} (h : SelInv s) (g : GestureSet) :
    SelInv (maybeSwitchMode s g) := by
  cases hl : persistentLabel g with
  | none =>
    rw [maybeSwitchMode_eq_none hl]
    split_ifs with hc
    · exact selInv_set_last h _
    · exact h
  | some lbl =>
    rw [maybeSwitchMode_eq_some hl rfl]
    generalize hA : (if some lbl ≠ s.lastGesture then
        { s with lastGesture := some lbl, gestureFrames := 0 } else s) = t
    have h1 : SelInv t := by
      rw [← hA]
      split_ifs with hc
      · exact selInv_set_last h _
      · exact h
    split_ifs with hfire
    · exact selInv_reset_counters (selInv_toggle (selInv_inc_counter h1)
        (targetMode lbl)) _
    · exact selInv_inc_counter h1

theorem applyTransform_mode_selected (G : Geom) (s : CState) (g : GestureSet)
    (p : Pts) :
    (applyTransform G s g p).mode = s.mode ∧
    (applyTransform G s g p).selected = s.selected := by
  cases hsel : s.selected with
  | none => simp [applyTransform, hsel]
  | some i =>
    cases hg : s.shapes[i]? with
    | none => simp [applyTransform, hsel, hg]
    | some sh =>
      cases sh with
      | box b =>
        simp only [applyTransform, List.get?_eq_getElem?, hsel, hg]
        split_ifs <;> simp
      | poly q => simp [applyTransform, hsel, hg]

theorem selInv_handleCreate (G : Geom) {s : CState} (h : SelInv s)
    (hm : s.mode = Mode.CREATE) (g : GestureSet) (p : Pts) :
    SelInv (handleCreateMode G s g p) := by
  have hsel : s.selected = Option.none := selInv_none_of_mode h (by simp [hm])
  by_cases hp : g.is_pinching = true
  · by_cases hc : (s.shapes.any fun sh =>
        match sh with
        | .box b => decide (G.dist b.center (p 8) < b.size)
        | .poly _ => false) = true
    · simpa [handleCreateMode, hp, hc] using h
    · have heq : handleCreateMode G s g p =
          { s with shapes := s.shapes ++ [Shape.box (mkShape2D (p 8) 100 (0, 165, 255))],
                   mode := Mode.IDLE } := by
        simp [handleCreateMode, hp, hc]
      rw [heq]
      constructor
      · intro hx
        rw [show ({ s with
            shapes := s.shapes ++ [Shape.box (mkShape2D (p 8) 100 (0, 165, 255))],
            mode := Mode.IDLE } : CState).selected = s.selected from rfl, hsel] at hx
        simp at hx
      · intro _
        exact h.2 hsel
  · simpa [handleCreateMode, hp] using h

theorem selInv_handleTransform (G : Geom) {s : CState} (h : SelInv s)
    (hm : s.mode = Mode.TRANSFORM) (g : GestureSet) (p : Pts) :
    SelInv (handleTransformMode G s g p) := by
  cases hs : s.selected with
  | none =>
    by_cases hp : g.is_pinching = true
    · cases hf : findHit G s.shapes (p 8) with
      | none => simpa [handleTransformMode, hs, hp, hf] using h
      | some ib =>
        obtain ⟨j, b⟩ := ib
        have heq : handleTransformMode G s g p = selectShape G s j b p g := by
          simp [handleTransformMode, hs, hp, hf]
        rw [heq]
        constructor
        · intro _
          simpa [selectShape] using hm
        · intro hx
          simp [selectShape] at hx
    · simpa [handleTransformMode, hs, hp] using h
  | some i =>
    by_cases hd : ¬ g.is_pinching = true ∧ ¬ g.is_two_finger_point = true
    · have heq : handleTransformMode G s g p = deselect s := by
        simp [handleTransformMode, hs, hd.1, hd.2]
      rw [heq]
      exact selInv_deselect s
    · have heq : handleTransformMode G s g p = applyTransform G s g p := by
        simp only [handleTransformMode, hs]
        rw [if_neg hd]
      rw [heq]
      obtain ⟨hmode, hsel2⟩ := applyTransform_mode_selected G s g p
      constructor
      · intro _
        rw [hmode, hm]
      · intro hx
        rw [hsel2, hs] at hx
        simp at hx

theorem selInv_handleDraw {s : CState} (h : SelInv s)
    (hm : s.mode = Mode.DRAW) (g : GestureSet) (p : Pts) :
    SelInv (handleDrawMode s g p) := by
  have hsel : s.selected = Option.none := selInv_none_of_mode h (by simp [hm])
  by_cases hd : g.is_draw_gesture = true
  · by_cases hw : s.is_drawing = true
    · cases hlast : s.current_stroke.getLast? with
      | none => simpa [handleDrawMode, hd, hw, hlast] using h
      | some q =>
        by_cases hstep : distSq (p 8) q ≥ STROKE_MIN_STEP_SQ
        · have heq : handleDrawMode s g p =
              { s with current_stroke := s.current_stroke ++ [p 8] } := by
            simp [handleDrawMode, hd, hw, hlast, hstep]
          rw [heq]
          exact selInv_of_fields h rfl rfl rfl rfl rfl rfl rfl
        · simpa [handleDrawMode, hd, hw, hlast, hstep] using h
    · have heq : handleDrawMode s g p =
          { s with is_drawing := true, current_stroke := [p 8] } := by
        simp [handleDrawMode, hd, hw]
      rw [heq]
      exact selInv_of_fields h rfl rfl rfl rfl rfl rfl rfl
  · by_cases hw : s.is_drawing = true
    · have heq : handleDrawMode s g p = endStroke s := by
        simp [handleDrawMode, hd, hw]
      rw [heq]
      exact selInv_endStroke h hsel
    · simpa [handleDrawMode, hd, hw] using h

theorem selInv_update (G : Geom) {s : CState} (h : SelInv s)
    (g? : Option GestureSet) (p? : Option Pts) : SelInv (updateC G s g? p?) := by
  unfold updateC
  have hstep : SelInv ({ s with frameIndex := s.frameIndex + 1 } : CState) :=
    selInv_of_fields h rfl rfl rfl rfl rfl rfl rfl
  cases g? with
  | none => exact hstep
  | some g =>
    cases p? with
    | none => exact hstep
    | some p =>
      have h1 : SelInv (maybeSwitchMode { s with frameIndex := s.frameIndex + 1 } g) :=
        selInv_maybeSwitch hstep g
      cases hm : (maybeSwitchMode { s with frameIndex := s.frameIndex + 1 } g).mode with
      | IDLE => simp only [hm]; exact selInv_deselect _
      | CREATE => simp only [hm]; exact selInv_handleCreate G h1 hm g p
      | TRANSFORM => simp only [hm]; exact selInv_handleTransform G h1 hm g p
      | DRAW => simp only [hm]; exact selInv_handleDraw h1 hm g p

theorem endStroke_stroke (u : CState) :
    (endStroke u).current_stroke = [] ∧ (endStroke u).is_drawing = false := by
  by_cases h1 : u.current_stroke = []
  · simp [endStroke, h1]
  · by_cases h2 : u.current_stroke.length < 5 <;> simp [endStroke, h1, h2]

theorem endStroke_mode (u : CState) :
    (endStroke u).mode = u.mode ∨ (endStroke u).mode = Mode.IDLE := by
  by_cases h1 : u.current_stroke = []
  · left
    simp [endStroke, h1]
  · right
    by_cases h2 : u.current_stroke.length < 5 <;> simp [endStroke, h1, h2]

theorem endStroke_of_empty {u : CState} (h : u.current_stroke = []) :
    endStroke u = { u with is_drawing := false } := by
  simp [endStroke, h]

theorem endStroke_counters (u : CState) :
    (endStroke u).frameIndex = u.frameIndex ∧
    (endStroke u).lastGesture = u.lastGesture ∧
    (endStroke u).gestureFrames = u.gestureFrames ∧
    (endStroke u).lastModeSwitchFrame = u.lastModeSwitchFrame := by
  by_cases h1 : u.current_stroke = []
  · simp [endStroke, h1]
  · by_cases h2 : u.current_stroke.length < 5 <;> simp [endStroke, h1, h2]

theorem deselect_counters (u : CState) :
    (deselect u).mode = u.mode ∧
    (deselect u).current_stroke = u.current_stroke ∧
    (deselect u).is_drawing = u.is_drawing ∧
    (deselect u).frameIndex = u.frameIndex ∧
    (deselect u).lastGesture = u.lastGesture ∧
    (deselect u).gestureFrames = u.gestureFrames ∧
    (deselect u).lastModeSwitchFrame = u.lastModeSwitchFrame := by
  simp [deselect]

theorem toggleMode_eq_of_transform (u : CState) (target : Mode)
    (hT : (if u.mode = target then Mode.IDLE else target) = Mode.TRANSFORM) :
    toggleMode u target =
      endStroke { u with mode := Mode.TRANSFORM } := by
  simp [toggleMode, hT, deselect_mode]

theorem toggleMode_eq_of_draw (u : CState) (target : Mode)
    (hD : (if u.mode = target then Mode.IDLE else target) = Mode.DRAW) :
    toggleMode u target = deselect { u with mode := Mode.DRAW } := by
  simp [toggleMode, hD, deselect_mode]

theorem toggleMode_eq_of_other (u : CState) (target : Mode) {m : Mode}
    (hv : (if u.mode = target then Mode.IDLE else target) = m)
    (hT : m ≠ Mode.TRANSFORM) (hD : m ≠ Mode.DRAW) :
    toggleMode u target = endStroke (deselect { u with mode := m }) := by
  simp [toggleMode, hv, deselect_mode, hT, hD]

theorem toggleMode_mode (u : CState) (target : Mode)
    (hcase : u.current_stroke = [] ∨
      (if u.mode = target then Mode.IDLE else target) = Mode.IDLE ∨
      (if u.mode = target then Mode.IDLE else target) = Mode.DRAW) :
    (toggleMode u target).mode = (if u.mode = target then Mode.IDLE else target) := by
  cases hm : (if u.mode = target then Mode.IDLE else target) with
  | IDLE =>
    rw [toggleMode_eq_of_other u target hm (by simp) (by simp)]
    rcases endStroke_mode (deselect { u with mode := Mode.IDLE }) with h | h
    · rw [h, (deselect_counters _).1]
    · rw [h]
  | CREATE =>
    have hstroke : u.current_stroke = [] := by
      rcases hcase with hc | hc | hc
      · exact hc
      · rw [hm] at hc
        cases hc
      · rw [hm] at hc
        cases hc
    rw [toggleMode_eq_of_other u target hm (by simp) (by simp)]
    rw [endStroke_of_empty (by simp [deselect, hstroke])]
    rw [(deselect_counters _).1]
  | TRANSFORM =>
    have hstroke : u.current_stroke = [] := by
      rcases hcase with hc | hc | hc
      · exact hc
      · rw [hm] at hc
        cases hc
      · rw [hm] at hc
        cases hc
    rw [toggleMode_eq_of_transform u target hm]
    rw [endStroke_of_empty (by simp [hstroke])]
  | DRAW =>
    rw [toggleMode_eq_of_draw u target hm]
    rw [(deselect_counters _).1]

theorem toggleMode_clears_selection (u : CState) (target : Mode)
    (hT : (if u.mode = target then Mode.IDLE else target) ≠ Mode.TRANSFORM) :
    (toggleMode u target).selected = Option.none ∧
    (toggleMode u target).grab_offset = Option.none ∧
    (toggleMode u target).base_size = Option.none ∧
    (toggleMode u target).base_pinch = Option.none ∧
    (toggleMode u target).base_shape_angle = Option.none ∧
    (toggleMode u target).base_finger_angle = Option.none := by
  cases hm : (if u.mode = target then Mode.IDLE else target) with
  | IDLE =>
    rw [toggleMode_eq_of_other u target hm (by simp) (by simp)]
    obtain ⟨f0, f1, f2, f3, f4, f5⟩ := endStroke_fields (deselect { u with mode := Mode.IDLE })
    rw [f0, f1, f2, f3, f4, f5]
    simp [deselect]
  | CREATE =>
    rw [toggleMode_eq_of_other u target hm (by simp) (by simp)]
    obtain ⟨f0, f1, f2, f3, f4, f5⟩ := endStroke_fields (deselect { u with mode := Mode.CREATE })
    rw [f0, f1, f2, f3, f4, f5]
    simp [deselect]
  | TRANSFORM =>
    rw [hm] at hT
    exact absurd rfl hT
  | DRAW =>
    rw [toggleMode_eq_of_draw u target hm]
    simp [deselect]

theorem toggleMode_clears_stroke (u : CState) (target : Mode)
    (hD : (if u.mode = target then Mode.IDLE else target) ≠ Mode.DRAW) :
    (toggleMode u target).current_stroke = [] ∧
    (toggleMode u target).is_drawing = false := by
  cases hm : (if u.mode = target then Mode.IDLE else target) with
  | IDLE =>
    rw [toggleMode_eq_of_other u target hm (by simp) (by simp)]
    exact endStroke_stroke _
  | CREATE =>
    rw [toggleMode_eq_of_other u target hm (by simp) (by simp)]
    exact endStroke_stroke _
  | TRANSFORM =>
    rw [toggleMode_eq_of_transform u target hm]
    exact endStroke_stroke _
  | DRAW =>
    rw [hm] at hD
    exact absurd rfl hD

theorem toggleMode_counters (u : CState) (target : Mode) :
    (toggleMode u target).frameIndex = u.frameIndex ∧
    (toggleMode u target).lastGesture = u.lastGesture ∧
    (toggleMode u target).gestureFrames = u.gestureFrames ∧
    (toggleMode u target).lastModeSwitchFrame = u.lastModeSwitchFrame := by
  cases hm : (if u.mode = target then Mode.IDLE else target) with
  | IDLE =>
    rw [toggleMode_eq_of_other u target hm (by simp) (by simp)]
    obtain ⟨e0, e1, e2, e3⟩ := endStroke_counters (deselect { u with mode := Mode.IDLE })
    obtain ⟨d0, d1, d2, d3, d4, d5, d6⟩ := deselect_counters ({ u with mode := Mode.IDLE } : CState)
    exact ⟨by rw [e0, d3], by rw [e1, d4], by rw [e2, d5], by rw [e3, d6]⟩
  | CREATE =>
    rw [toggleMode_eq_of_other u target hm (by simp) (by simp)]
    obtain ⟨e0, e1, e2, e3⟩ := endStroke_counters (deselect { u with mode := Mode.CREATE })
    obtain ⟨d0, d1, d2, d3, d4, d5, d6⟩ := deselect_counters ({ u with mode := Mode.CREATE } : CState)
    exact ⟨by rw [e0, d3], by rw [e1, d4], by rw [e2, d5], by rw [e3, d6]⟩
  | TRANSFORM =>
    rw [toggleMode_eq_of_transform u target hm]
    obtain ⟨e0, e1, e2, e3⟩ := endStroke_counters ({ u with mode := Mode.TRANSFORM } : CState)
    exact ⟨by rw [e0], by rw [e1], by rw [e2], by rw [e3]⟩
  | DRAW =>
    rw [toggleMode_eq_of_draw u target hm]
    obtain ⟨d0, d1, d2, d3, d4, d5, d6⟩ := deselect_counters ({ u with mode := Mode.DRAW } : CState)
    exact ⟨by rw [d3], by rw [d4], by rw [d5], by rw [d6]⟩

theorem selectShape_counters (G : Geom) (s : CState) (i : ℕ) (b : Shape2D)
    (p : Pts) (g : GestureSet) :
    (selectShape G s i b p g).gestureFrames = s.gestureFrames ∧
    (selectShape G s i b p g).lastGesture = s.lastGesture := by
  simp [selectShape]

theorem applyTransform_counters (G : Geom) (s : CState) (g : GestureSet) (p : Pts) :
    (applyTransform G s g p).gestureFrames = s.gestureFrames ∧
    (applyTransform G s g p).lastGesture = s.lastGesture := by
  cases hsel : s.selected with
  | none => simp [applyTransform, hsel]
  | some i =>
    cases hg : s.shapes[i]? with
    | none => simp [applyTransform, hsel, hg]
    | some sh =>
      cases sh with
      | box b =>
        simp only [applyTransform, List.get?_eq_getElem?, hsel, hg]
        split_ifs <;> simp
      | poly q => simp [applyTransform, hsel, hg]

theorem handleCreate_counters (G : Geom) (s : CState) (g : GestureSet) (p : Pts) :
    (handleCreateMode G s g p).gestureFrames = s.gestureFrames ∧
    (handleCreateMode G s g p).lastGesture = s.lastGesture := by
  by_cases hp : g.is_pinching = true
  · by_cases hc : (s.shapes.any fun sh =>
        match sh with
        | .box b => decide (G.dist b.center (p 8) < b.size)
        | .poly _ => false) = true
    · simp [handleCreateMode, hp, hc]
    · simp [handleCreateMode, hp, hc]
  · simp [handleCreateMode, hp]

theorem handleTransform_counters (G : Geom) (s : CState) (g : GestureSet) (p : Pts) :
    (handleTransformMode G s g p).gestureFrames = s.gestureFrames ∧
    (handleTransformMode G s g p).lastGesture = s.lastGesture := by
  cases hs : s.selected with
  | none =>
    by_cases hp : g.is_pinching = true
    · cases hf : findHit G s.shapes (p 8) with
      | none => simp [handleTransformMode, hs, hp, hf]
      | some ib =>
        obtain ⟨j, b⟩ := ib
        have heq : handleTransformMode G s g p = selectShape G s j b p g := by
          simp [handleTransformMode, hs, hp, hf]
        rw [heq]
        exact selectShape_counters G s j b p g
    · simp [handleTransformMode, hs, hp]
  | some i =>
    by_cases hd : ¬ g.is_pinching = true ∧ ¬ g.is_two_finger_point = true
    · have heq : handleTransformMode G s g p = deselect s := by
        simp [handleTransformMode, hs, hd.1, hd.2]
      rw [heq]
      obtain ⟨_, _, _, _, d4, d5, _⟩ := deselect_counters s
      exact ⟨d5, d4⟩
    · have heq : handleTransformMode G s g p = applyTransform G s g p := by
        simp only [handleTransformMode, hs]
        rw [if_neg hd]
      rw [heq]
      exact applyTransform_counters G s g p

theorem handleDraw_counters (s : CState) (g : GestureSet) (p : Pts) :
    (handleDrawMode s g p).gestureFrames = s.gestureFrames ∧
    (handleDrawMode s g p).lastGesture = s.lastGesture := by
  by_cases hd : g.is_draw_gesture = true
  · by_cases hw : s.is_drawing = true
    · cases hlast : s.current_stroke.getLast? with
      | none => simp [handleDrawMode, hd, hw, hlast]
      | some q =>
        by_cases hstep : distSq (p 8) q ≥ STROKE_MIN_STEP_SQ
        · simp [handleDrawMode, hd, hw, hlast, hstep]
        · simp [handleDrawMode, hd, hw, hlast, hstep]
    · simp [handleDrawMode, hd, hw]
  · by_cases hw : s.is_drawing = true
    · have heq : handleDrawMode s g p = endStroke s := by
        simp [handleDrawMode, hd, hw]
      rw [heq]
      obtain ⟨_, e1, e2, _⟩ := endStroke_counters s
      exact ⟨e2, e1⟩
    · simp [handleDrawMode, hd, hw]

theorem updateC_counters_eq (G : Geom) (s : CState) (g : GestureSet) (p : Pts) :
    (updateC G s (some g) (some p)).gestureFrames =
      (maybeSwitchMode { s with frameIndex := s.frameIndex + 1 } g).gestureFrames ∧
    (updateC G s (some g) (some p)).lastGesture =
      (maybeSwitchMode { s with frameIndex := s.frameIndex + 1 } g).lastGesture := by
  unfold updateC
  cases hm : (maybeSwitchMode { s with frameIndex := s.frameIndex + 1 } g).mode with
  | IDLE =>
    simp only [hm]
    obtain ⟨_, _, _, _, d4, d5, _⟩ := deselect_counters
      (maybeSwitchMode { s with frameIndex := s.frameIndex + 1 } g)
    exact ⟨d5, d4⟩
  | CREATE =>
    simp only [hm]
    exact handleCreate_counters G _ g p
  | TRANSFORM =>
    simp only [hm]
    exact handleTransform_counters G _ g p
  | DRAW =>
    simp only [hm]
    exact handleDraw_counters _ g p

theorem msm_lastGesture (s : CState) (g : GestureSet) :
    (maybeSwitchMode s g).lastGesture = persistentLabel g := by
  cases hl : persistentLabel g with
  | none =>
    rw [maybeSwitchMode_eq_none hl]
    split_ifs with hc
    · rfl
    · exact (not_not.mp hc).symm
  | some lbl =>
    rw [maybeSwitchMode_eq_some hl rfl]
    generalize hA : (if some lbl ≠ s.lastGesture then
        { s with lastGesture := some lbl, gestureFrames := 0 } else s) = t
    have ht : t.lastGesture = some lbl := by
      rw [← hA]
      split_ifs with hc
      · rfl
      · exact (not_not.mp hc).symm
    split_ifs with hfire
    · calc ({ toggleMode { t with gestureFrames := t.gestureFrames + 1 } (targetMode lbl) with
              lastModeSwitchFrame := (toggleMode { t with gestureFrames := t.gestureFrames + 1 }
                (targetMode lbl)).frameIndex,
              gestureFrames := 0 } : CState).lastGesture
          = (toggleMode { t with gestureFrames := t.gestureFrames + 1 }
              (targetMode lbl)).lastGesture := rfl
        _ = ({ t with gestureFrames := t.gestureFrames + 1 } : CState).lastGesture :=
            (toggleMode_counters _ _).2.1
        _ = some lbl := ht
    · exact ht

theorem msm_counter_le (s : CState) (g : GestureSet) (L : Option GLabel) (n : ℕ)
    (hlast : s.lastGesture = L) (hcnt : s.gestureFrames ≤ n) :
    (maybeSwitchMode s g).gestureFrames ≤
      (if persistentLabel g = L then n + 1 else 1) := by
  cases hl : persistentLabel g with
  | none =>
    rw [maybeSwitchMode_eq_none hl]
    by_cases hc : (Option.none : Option GLabel) ≠ s.lastGesture
    · rw [if_pos hc]
      exact Nat.zero_le _
    · rw [if_neg hc]
      have hL : (Option.none : Option GLabel) = L := (not_not.mp hc).trans hlast
      rw [if_pos hL]
      exact hcnt.trans (Nat.le_succ n)
  | some lbl =>
    rw [maybeSwitchMode_eq_some hl rfl]
    generalize hA : (if some lbl ≠ s.lastGesture then
        { s with lastGesture := some lbl, gestureFrames := 0 } else s) = t
    have hres : (if t.gestureFrames + 1 ≥ DEBOUNCE_FRAMES ∧
        t.frameIndex - t.lastModeSwitchFrame ≥ MODE_COOLDOWN_FRAMES then
          ({ toggleMode { t with gestureFrames := t.gestureFrames + 1 } (targetMode lbl) with
              lastModeSwitchFrame := (toggleMode { t with gestureFrames := t.gestureFrames + 1 }
                (targetMode lbl)).frameIndex,
              gestureFrames := 0 } : CState)
        else { t with gestureFrames := t.gestureFrames + 1 }).gestureFrames ≤
        t.gestureFrames + 1 := by
      split_ifs with hfire
      · exact Nat.zero_le _
      · exact le_rfl
    refine hres.trans ?_
    by_cases hLL : (some lbl : Option GLabel) = L
    · rw [if_pos hLL]
      have hgf : t.gestureFrames ≤ n := by
        rw [← hA]
        have hc : ¬ ((some lbl : Option GLabel) ≠ s.lastGesture) :=
          not_not_intro (hLL.trans hlast.symm)
        rw [if_neg hc]
        exact hcnt
      omega
    · rw [if_neg hLL]
      have hgf : t.gestureFrames = 0 := by
        rw [← hA]
        have hc : (some lbl : Option GLabel) ≠ s.lastGesture := by
          intro hx
          exact hLL (hx.trans hlast)
        rw [if_pos hc]
      omega

theorem updateC_lastGesture (G : Geom) (s : CState) (g : GestureSet) (p : Pts) :
    (updateC G s (some g) (some p)).lastGesture = persistentLabel g := by
  rw [(updateC_counters_eq G s g p).2]
  exact msm_lastGesture _ g

theorem updateC_counter_le (G : Geom) (s : CState) (g : GestureSet) (p : Pts)
    (L : Option GLabel) (n : ℕ)
    (hlast : s.lastGesture = L) (hcnt : s.gestureFrames ≤ n) :
    (updateC G s (some g) (some p)).gestureFrames ≤
      (if persistentLabel g = L then n + 1 else 1) := by
  rw [(updateC_counters_eq G s g p).1]
  exact msm_counter_le _ g L n hlast hcnt

theorem lrStep_fst (acc : Option GLabel × ℕ) (g : GestureSet) :
    (lrStep acc g).1 = persistentLabel g := by
  unfold lrStep
  split_ifs <;> rfl

theorem lrStep_snd (acc : Option GLabel × ℕ) (g : GestureSet) :
    (lrStep acc g).2 = (if persistentLabel g = acc.1 then acc.2 + 1 else 1) := by
  unfold lrStep
  split_ifs <;> rfl

theorem runC_label_counter (G : Geom) :
    ∀ (frames : List (GestureSet × Pts)) (s : CState) (acc : Option GLabel × ℕ),
      s.lastGesture = acc.1 → s.gestureFrames ≤ acc.2 →
      (runC G s frames).lastGesture = ((frames.map Prod.fst).foldl lrStep acc).1 ∧
      (runC G s frames).gestureFrames ≤ ((frames.map Prod.fst).foldl lrStep acc).2 := by
  intro frames
  induction frames with
  | nil =>
    intro s acc h1 h2
    exact ⟨h1, h2⟩
  | cons fp rest ih =>
    intro s acc h1 h2
    obtain ⟨g, p⟩ := fp
    have hstep1 : (updateC G s (some g) (some p)).lastGesture = (lrStep acc g).1 := by
      rw [updateC_lastGesture, lrStep_fst]
    have hstep2 : (updateC G s (some g) (some p)).gestureFrames ≤ (lrStep acc g).2 := by
      rw [lrStep_snd]
      exact updateC_counter_le G s g p acc.1 acc.2 h1 h2
    have hrec := ih (updateC G s (some g) (some p)) (lrStep acc g) hstep1 hstep2
    simpa [runC, List.foldl_cons] using hrec

theorem stroke_empty_of_inv {s : CState} (hinv : StrokeInv s)
    (hcase : s.mode ≠ Mode.DRAW ∨
      (1 ≤ s.gestureFrames ∧
        (s.lastGesture = some GLabel.open_palm ∨ s.lastGesture = some GLabel.pointing))) :
    s.current_stroke = [] := by
  by_contra hne
  have hdraw := hinv.1 hne
  have hmode := hinv.2.1 hdraw
  rcases hcase with hc | hc
  · exact hc hmode
  · have hfalse := hinv.2.2 hmode hc.1 hc.2
    rw [hdraw] at hfalse
    cases hfalse

/-! ### Lemmas about the RDP simplification -/

theorem psDistSq_nonneg (p s e : ℚ × ℚ) : 0 ≤ psDistSq p s e := by
  unfold psDistSq distSq
  dsimp only
  split_ifs <;> positivity

theorem getLastD_concat_cons (a b d : ℚ × ℚ) (l : List (ℚ × ℚ)) :
    ((a :: l) ++ [b]).getLastD d = b := by
  induction l generalizing a with
  | nil => rfl
  | cons x xs ih => exact ih x

theorem interior_decomp (a b : ℚ × ℚ) (mid : List (ℚ × ℚ)) :
    interior ((a :: mid) ++ [b]) = mid := by
  simp [interior, List.dropLast_concat]

theorem decomp_accessors (a b : ℚ × ℚ) (mid : List (ℚ × ℚ)) :
    ((a :: mid) ++ [b]).headD (0, 0) = a ∧
    ((a :: mid) ++ [b]).getLastD (0, 0) = b ∧
    interior ((a :: mid) ++ [b]) = mid :=
  ⟨rfl, getLastD_concat_cons a b (0, 0) mid, interior_decomp a b mid⟩

theorem exists_decomp (l : List (ℚ × ℚ)) (h : 2 ≤ l.length) :
    ∃ a mid b, l = (a :: mid) ++ [b] := by
  cases l with
  | nil => simp at h
  | cons a rest =>
    have hne : rest ≠ [] := by
      intro h0
      rw [h0] at h
      simp at h
    refine ⟨a, rest.dropLast, rest.getLast hne, ?_⟩
    rw [List.cons_append]
    rw [List.dropLast_append_getLast hne]

theorem bsa_append (s e : ℚ × ℚ) (l₁ l₂ : List (ℚ × ℚ)) :
    ∀ (i : ℕ) (acc : Option ℚ × ℕ),
      bestSplitAux s e (l₁ ++ l₂) i acc =
        bestSplitAux s e l₂ (i + l₁.length) (bestSplitAux s e l₁ i acc) := by
  induction l₁ with
  | nil =>
    intro i acc
    simp only [List.nil_append, List.length_nil, Nat.add_zero]
    rfl
  | cons p rest ih =>
    intro i acc
    simp only [List.cons_append, bestSplitAux]
    rw [List.append_eq, ih]
    have harith : i + 1 + rest.length = i + (rest.length + 1) := by omega
    rw [harith]
    rfl

theorem bsa_isSome (s e : ℚ × ℚ) :
    ∀ (l : List (ℚ × ℚ)) (i : ℕ) (a : ℚ) (j : ℕ),
      (bestSplitAux s e l i (some a, j)).1.isSome = true := by
  intro l
  induction l with
  | nil =>
    intro i a j
    simp [bestSplitAux]
  | cons p rest ih =>
    intro i a j
    simp only [bestSplitAux]
    split_ifs with h
    · exact ih (i + 1) _ i
    · exact ih (i + 1) a j

theorem bsa_no_update (s e : ℚ × ℚ) :
    ∀ (l : List (ℚ × ℚ)) (i : ℕ) (a : ℚ) (j : ℕ),
      (∀ q ∈ l, psDistSq q s e ≤ a) →
      bestSplitAux s e l i (some a, j) = (some a, j) := by
  intro l
  induction l with
  | nil =>
    intro i a j _
    rfl
  | cons p rest ih =>
    intro i a j h
    have hp : psDistSq p s e ≤ a := h p (by simp)
    have hb : (decide (a < psDistSq p s e)) = false := decide_eq_false (not_lt.mpr hp)
    simp only [bestSplitAux, hb, Bool.false_eq_true, if_false]
    exact ih (i + 1) a j fun q hq => h q (by simp [hq])

theorem bsa_run_below (s e : ℚ × ℚ) (b : ℚ) :
    ∀ (l : List (ℚ × ℚ)), (∀ q ∈ l, psDistSq q s e < b) →
      ∀ (i : ℕ) (acc : Option ℚ × ℕ),
        (acc.1 = Option.none ∨ ∃ a, acc.1 = some a ∧ a < b) →
        ((bestSplitAux s e l i acc).1 = Option.none ∨
          ∃ a, (bestSplitAux s e l i acc).1 = some a ∧ a < b) := by
  intro l
  induction l with
  | nil =>
    intro _ i acc hacc
    exact hacc
  | cons p rest ih =>
    intro h i acc hacc
    have hp : psDistSq p s e < b := h p (by simp)
    simp only [bestSplitAux]
    apply ih (fun q hq => h q (by simp [hq]))
    split_ifs with hbet
    · exact Or.inr ⟨psDistSq p s e, rfl, hp⟩
    · exact hacc

theorem bsa_some_spec (s e : ℚ × ℚ) :
    ∀ (l : List (ℚ × ℚ)) (k : ℕ) (a : ℚ) (i : ℕ) (m : ℚ) (j : ℕ),
      bestSplitAux s e l k (some a, i) = (some m, j) →
      (m = a ∧ j = i ∧ ∀ q ∈ l, psDistSq q s e ≤ a) ∨
      (∃ u p v, l = u ++ p :: v ∧ j = k + u.length ∧ psDistSq p s e = m ∧ a < m ∧
        (∀ q ∈ u, psDistSq q s e < m) ∧ (∀ q ∈ v, psDistSq q s e ≤ m)) := by
  intro l
  induction l with
  | nil =>
    intro k a i m j h
    have h1 : (some a, i) = ((some m, j) : Option ℚ × ℕ) := h
    have h2 : a = m := by
      have := congrArg Prod.fst h1
      simpa using this
    have h3 : i = j := by
      have := congrArg Prod.snd h1
      simpa using this
    exact Or.inl ⟨h2.symm, h3.symm, by simp⟩
  | cons p rest ih =>
    intro k a i m j h
    by_cases hbet : a < psDistSq p s e
    · have hb : (decide (a < psDistSq p s e)) = true := decide_eq_true hbet
      simp only [bestSplitAux, hb, if_true] at h
      rcases ih (k + 1) (psDistSq p s e) k m j h with ⟨hm, hj, hall⟩ |
        ⟨u, q, v, hl, hj, hdq, hlt, hu, hv⟩
      · refine Or.inr ⟨[], p, rest, by simp, by simpa using hj, hm ▸ rfl, hm ▸ hbet,
          by simp, ?_⟩
        intro q hq
        rw [hm]
        exact hall q hq
      · refine Or.inr ⟨p :: u, q, v, by rw [hl]; simp, by simp [hj]; omega, hdq,
          lt_trans hbet hlt, ?_, hv⟩
        intro q' hq'
        rcases List.mem_cons.mp hq' with rfl | hq'
        · exact hlt
        · exact hu q' hq'
    · have hb : (decide (a < psDistSq p s e)) = false := decide_eq_false hbet
      simp only [bestSplitAux, hb, Bool.false_eq_true, if_false] at h
      rcases ih (k + 1) a i m j h with ⟨hm, hj, hall⟩ |
        ⟨u, q, v, hl, hj, hdq, hlt, hu, hv⟩
      · refine Or.inl ⟨hm, hj, ?_⟩
        intro q hq
        rcases List.mem_cons.mp hq with rfl | hq
        · exact not_lt.mp hbet
        · exact hall q hq
      · refine Or.inr ⟨p :: u, q, v, by rw [hl]; simp, by simp [hj]; omega, hdq, hlt, ?_, hv⟩
        intro q' hq'
        rcases List.mem_cons.mp hq' with rfl | hq'
        · exact lt_of_le_of_lt (not_lt.mp hbet) hlt
        · exact hu q' hq'

theorem interior_length (pts : List (ℚ × ℚ)) :
    (interior pts).length = pts.length - 1 - 1 := by
  simp [interior]

theorem bestSplit_spec {pts : List (ℚ × ℚ)} {s e : ℚ × ℚ} (h3 : 3 ≤ pts.length)
    {m? : Option ℚ} {j : ℕ} (hbs : bestSplit pts s e = (m?, j)) :
    ∃ m, m? = some m ∧ ∃ u p v, interior pts = u ++ p :: v ∧ j = 1 + u.length ∧
      psDistSq p s e = m ∧ (∀ q ∈ u, psDistSq q s e < m) ∧
      (∀ q ∈ v, psDistSq q s e ≤ m) := by
  have hne : interior pts ≠ [] := by
    intro h0
    have := interior_length pts
    rw [h0] at this
    simp at this
    omega
  obtain ⟨q0, rest, hq⟩ := List.exists_cons_of_ne_nil hne
  unfold bestSplit at hbs
  rw [hq] at hbs
  have hstep : bestSplitAux s e (q0 :: rest) 1 (Option.none, 0) =
      bestSplitAux s e rest 2 (some (psDistSq q0 s e), 1) := rfl
  rw [hstep] at hbs
  obtain ⟨m, hm⟩ : ∃ m, m? = some m := by
    have hsome := bsa_isSome s e rest 2 (psDistSq q0 s e) 1
    rw [hbs] at hsome
    cases m? with
    | none => simp at hsome
    | some m => exact ⟨m, rfl⟩
  subst hm
  refine ⟨m, rfl, ?_⟩
  rcases bsa_some_spec s e rest 2 (psDistSq q0 s e) 1 m j hbs with ⟨hm', hj, hall⟩ |
    ⟨u, p, v, hl, hj, hdq, hlt, hu, hv⟩
  · refine ⟨[], q0, rest, by simp [hq], by simpa using hj, hm' ▸ rfl, by simp, ?_⟩
    intro q hqmem
    rw [hm']
    exact hall q hqmem
  · refine ⟨q0 :: u, p, v, by rw [hq, hl]; simp, by simp [hj]; omega, hdq, ?_, hv⟩
    intro q' hq'
    rcases List.mem_cons.mp hq' with rfl | hq'
    · exact hlt
    · exact hu q' hq'

theorem bestSplit_idx_bounds {pts : List (ℚ × ℚ)} {s e : ℚ × ℚ}
    (h3 : 3 ≤ pts.length) {m : ℚ} {j : ℕ}
    (hbs : bestSplit pts s e = (some m, j)) :
    1 ≤ j ∧ j + 2 ≤ pts.length := by
  obtain ⟨m', hm', u, p, v, hl, hj, _, _, _⟩ := bestSplit_spec h3 hbs
  have hlen : (interior pts).length = u.length + 1 + v.length := by
    rw [hl]
    simp
    omega
  have hil := interior_length pts
  omega

theorem bestSplit_of_decomp (s e : ℚ × ℚ) (Y : List (ℚ × ℚ)) (u : List (ℚ × ℚ))
    (p : ℚ × ℚ) (v : List (ℚ × ℚ))
    (hi : interior Y = u ++ p :: v)
    (hu : ∀ q ∈ u, psDistSq q s e < psDistSq p s e)
    (hv : ∀ q ∈ v, psDistSq q s e ≤ psDistSq p s e) :
    bestSplit Y s e = (some (psDistSq p s e), 1 + u.length) := by
  unfold bestSplit
  rw [hi]
  rw [bsa_append s e u (p :: v) 1 (Option.none, 0)]
  have hacc := bsa_run_below s e (psDistSq p s e) u hu 1 (Option.none, 0) (Or.inl rfl)
  have hbet : (match (bestSplitAux s e u 1 (Option.none, 0)).1 with
      | Option.none => true
      | some m => decide (m < psDistSq p s e)) = true := by
    rcases hacc with hnone | ⟨a, ha, hab⟩
    · rw [hnone]
    · rw [ha]
      exact decide_eq_true hab
  simp only [bestSplitAux, hbet, if_true]
  exact bsa_no_update s e v _ _ _ hv

theorem rdpF_short (f : ℕ) (pts : List (ℚ × ℚ)) (eps : ℚ) (h : pts.length < 3) :
    rdpF f pts eps = pts := by
  cases f with
  | zero => rfl
  | succ f => simp only [rdpF, if_pos h]

theorem rdpF_succ_eq (f : ℕ) (pts : List (ℚ × ℚ)) (eps : ℚ) :
    rdpF (f + 1) pts eps =
      if pts.length < 3 then pts
      else
        match bestSplit pts (pts.headD (0, 0)) (pts.getLastD (0, 0)) with
        | (Option.none, _) => [pts.headD (0, 0), pts.getLastD (0, 0)]
        | (some m, idx) =>
          if eps < 0 ∨ eps ^ 2 < m then
            (rdpF f (pts.take (idx + 1)) eps).dropLast ++ rdpF f (pts.drop idx) eps
          else [pts.headD (0, 0), pts.getLastD (0, 0)] := rfl

theorem rdpF_collapse (f : ℕ) (pts : List (ℚ × ℚ)) (eps : ℚ) (m : ℚ) (idx : ℕ)
    (h3 : ¬ pts.length < 3)
    (hbs : bestSplit pts (pts.headD (0, 0)) (pts.getLastD (0, 0)) = (some m, idx))
    (ht : ¬ (eps < 0 ∨ eps ^ 2 < m)) :
    rdpF (f + 1) pts eps = [pts.headD (0, 0), pts.getLastD (0, 0)] := by
  rw [rdpF_succ_eq, if_neg h3, hbs]
  dsimp only
  rw [if_neg ht]

theorem rdpF_split (f : ℕ) (pts : List (ℚ × ℚ)) (eps : ℚ) (m : ℚ) (idx : ℕ)
    (h3 : ¬ pts.length < 3)
    (hbs : bestSplit pts (pts.headD (0, 0)) (pts.getLastD (0, 0)) = (some m, idx))
    (ht : eps < 0 ∨ eps ^ 2 < m) :
    rdpF (f + 1) pts eps =
      (rdpF f (pts.take (idx + 1)) eps).dropLast ++ rdpF f (pts.drop idx) eps := by
  rw [rdpF_succ_eq, if_neg h3, hbs]
  dsimp only
  rw [if_pos ht]

theorem rdpF_congr : ∀ (n : ℕ) (pts : List (ℚ × ℚ)) (eps : ℚ) (m : ℕ),
    pts.length ≤ n → pts.length ≤ m → rdpF n pts eps = rdpF m pts eps := by
  intro n
  induction n with
  | zero =>
    intro pts eps m hn _
    have h3 : pts.length < 3 := by omega
    rw [rdpF_short 0 pts eps h3, rdpF_short m pts eps h3]
  | succ n ih =>
    intro pts eps m hn hm
    by_cases h3 : pts.length < 3
    · rw [rdpF_short _ _ _ h3, rdpF_short _ _ _ h3]
    · have h3' : 3 ≤ pts.length := by omega
      obtain ⟨m', rfl⟩ : ∃ m', m = m' + 1 := ⟨m - 1, by omega⟩
      rcases hbs : bestSplit pts (pts.headD (0, 0)) (pts.getLastD (0, 0)) with ⟨mv, j⟩
      obtain ⟨d, rfl, u, p, v, hint, hj, hdm, hu, hv⟩ := bestSplit_spec h3' hbs
      have hb := bestSplit_idx_bounds h3' hbs
      rw [rdpF_succ_eq n pts eps, rdpF_succ_eq m' pts eps, if_neg h3, if_neg h3, hbs]
      dsimp only
      by_cases ht : eps < 0 ∨ eps ^ 2 < d
      · rw [if_pos ht, if_pos ht]
        have ht1 : (pts.take (j + 1)).length ≤ n := by
          simp only [List.length_take]
          omega
        have ht2 : (pts.take (j + 1)).length ≤ m' := by
          simp only [List.length_take]
          omega
        have hd1 : (pts.drop j).length ≤ n := by
          simp only [List.length_drop]
          omega
        have hd2 : (pts.drop j).length ≤ m' := by
          simp only [List.length_drop]
          omega
        rw [ih (pts.take (j + 1)) eps m' ht1 ht2, ih (pts.drop j) eps m' hd1 hd2]
      · rw [if_neg ht, if_neg ht]

theorem rdp_short (pts : List (ℚ × ℚ)) (eps : ℚ) (h : pts.length < 3) :
    rdp pts eps = pts :=
  rdpF_short pts.length pts eps h

theorem rdp_collapse {pts : List (ℚ × ℚ)} {eps : ℚ} {m : ℚ} {idx : ℕ}
    (h3 : 3 ≤ pts.length)
    (hbs : bestSplit pts (pts.headD (0, 0)) (pts.getLastD (0, 0)) = (some m, idx))
    (ht : ¬ (eps < 0 ∨ eps ^ 2 < m)) :
    rdp pts eps = [pts.headD (0, 0), pts.getLastD (0, 0)] := by
  obtain ⟨f, hf⟩ : ∃ f, pts.length = f + 1 := ⟨pts.length - 1, by omega⟩
  unfold rdp
  rw [hf]
  exact rdpF_collapse f pts eps m idx (by omega) hbs ht

theorem rdp_split {pts : List (ℚ × ℚ)} {eps : ℚ} {m : ℚ} {idx : ℕ}
    (h3 : 3 ≤ pts.length)
    (hbs : bestSplit pts (pts.headD (0, 0)) (pts.getLastD (0, 0)) = (some m, idx))
    (ht : eps < 0 ∨ eps ^ 2 < m) :
    rdp pts eps = (rdp (pts.take (idx + 1)) eps).dropLast ++ rdp (pts.drop idx) eps := by
  obtain ⟨f, hf⟩ : ∃ f, pts.length = f + 1 := ⟨pts.length - 1, by omega⟩
  have hb := bestSplit_idx_bounds h3 hbs
  unfold rdp
  rw [hf, rdpF_split f pts eps m idx (by omega) hbs ht]
  rw [rdpF_congr f (pts.take (idx + 1)) eps (pts.take (idx + 1)).length
      (by simp only [List.length_take]; omega) le_rfl]
  rw [rdpF_congr f (pts.drop idx) eps (pts.drop idx).length
      (by simp only [List.length_drop]; omega) le_rfl]

theorem take_decomp (p : ℚ × ℚ) (u w : List (ℚ × ℚ)) :
    (u ++ p :: w).take (u.length + 1) = u ++ [p] := by
  induction u with
  | nil => simp
  | cons a u ih => simp [List.take_succ_cons, ih]

theorem drop_decomp (p : ℚ × ℚ) (u w : List (ℚ × ℚ)) :
    (u ++ p :: w).drop u.length = p :: w := by
  induction u with
  | nil => rfl
  | cons a u ih =>
    simp only [List.cons_append, List.length_cons, List.drop_succ_cons]
    exact ih

theorem split_decomp {pts : List (ℚ × ℚ)} {u v : List (ℚ × ℚ)} {p : ℚ × ℚ} {j : ℕ}
    (h3 : 3 ≤ pts.length) (hint : interior pts = u ++ p :: v) (hj : j = 1 + u.length) :
    ∃ a b, pts = a :: (u ++ p :: (v ++ [b])) ∧
      pts.take (j + 1) = (a :: u) ++ [p] ∧
      pts.drop j = (p :: v) ++ [b] ∧
      pts.headD (0, 0) = a ∧ pts.getLastD (0, 0) = b ∧
      pts.length = u.length + v.length + 3 := by
  obtain ⟨a, Y, b, hpts⟩ := exists_decomp pts (by omega)
  have hY : Y = u ++ p :: v := by
    rw [← interior_decomp a b Y, ← hpts]
    exact hint
  have hpts' : pts = a :: (u ++ p :: (v ++ [b])) := by
    rw [hpts, hY]
    simp
  refine ⟨a, b, hpts', ?_, ?_, ?_, ?_, ?_⟩
  · rw [hpts', hj, show 1 + u.length + 1 = u.length + 1 + 1 from by omega,
      List.take_succ_cons, take_decomp]
    simp
  · rw [hpts', hj, show 1 + u.length = u.length + 1 from by omega,
      List.drop_succ_cons, drop_decomp]
    simp
  · rw [hpts]
    exact (decomp_accessors a b Y).1
  · rw [hpts]
    exact (decomp_accessors a b Y).2.1
  · rw [hpts']
    simp only [List.length_cons, List.length_append, List.length_nil]
    omega

theorem rdp_structure : ∀ (n : ℕ) (pts : List (ℚ × ℚ)) (eps : ℚ),
    pts.length ≤ n → 2 ≤ pts.length →
    ∃ mid, rdp pts eps = (pts.headD (0, 0) :: mid) ++ [pts.getLastD (0, 0)] ∧
      ∀ q ∈ mid, q ∈ interior pts := by
  intro n
  induction n with
  | zero =>
    intro pts eps hn h2
    omega
  | succ n ih =>
    intro pts eps hn h2
    by_cases h3 : pts.length < 3
    · obtain ⟨a, mid0, b, hpts⟩ := exists_decomp pts h2
      have hm0 : mid0 = [] := by
        have hl := congrArg List.length hpts
        simp only [List.length_append, List.length_cons, List.length_nil] at hl
        have : mid0.length = 0 := by omega
        exact List.length_eq_zero.mp this
      subst hm0
      refine ⟨[], ?_, by simp⟩
      rw [rdp_short pts eps h3]
      subst hpts
      simp [getLastD_concat_cons]
    · have h3' : 3 ≤ pts.length := by omega
      rcases hbs : bestSplit pts (pts.headD (0, 0)) (pts.getLastD (0, 0)) with ⟨mv, j⟩
      obtain ⟨d, rfl, u, p, v, hint, hj, hdm, hu, hv⟩ := bestSplit_spec h3' hbs
      by_cases ht : eps < 0 ∨ eps ^ 2 < d
      · obtain ⟨a, b, hpts', htake, hdrop, hha, hhb, hlen⟩ := split_decomp h3' hint hj
        have hTlen : (pts.take (j + 1)).length ≤ n := by
          rw [htake]
          simp only [List.length_append, List.length_cons, List.length_nil]
          omega
        have hDlen : (pts.drop j).length ≤ n := by
          rw [hdrop]
          simp only [List.length_append, List.length_cons, List.length_nil]
          omega
        obtain ⟨midL, hL, hmidL⟩ := ih (pts.take (j + 1)) eps hTlen
          (by rw [htake]; simp only [List.length_append, List.length_cons, List.length_nil]; omega)
        obtain ⟨midR, hR, hmidR⟩ := ih (pts.drop j) eps hDlen
          (by rw [hdrop]; simp only [List.length_append, List.length_cons, List.length_nil]; omega)
        rw [htake] at hL hmidL
        rw [hdrop] at hR hmidR
        obtain ⟨hLa, hLb, hLi⟩ := decomp_accessors a p u
        rw [hLa, hLb] at hL
        rw [hLi] at hmidL
        obtain ⟨hRa, hRb, hRi⟩ := decomp_accessors p b v
        rw [hRa, hRb] at hR
        rw [hRi] at hmidR
        refine ⟨midL ++ p :: midR, ?_, ?_⟩
        · rw [rdp_split h3' hbs ht, htake, hdrop, hL, hR, List.dropLast_concat, hha, hhb]
          simp
        · intro q hq
          rw [hint]
          rcases List.mem_append.mp hq with hqL | hqR
          · exact List.mem_append.mpr (Or.inl (hmidL q hqL))
          · rcases List.mem_cons.mp hqR with rfl | hqR'
            · exact List.mem_append.mpr (Or.inr (List.mem_cons.mpr (Or.inl rfl)))
            · exact List.mem_append.mpr (Or.inr (List.mem_cons.mpr (Or.inr (hmidR q hqR'))))
      · refine ⟨[], ?_, by simp⟩
        rw [rdp_collapse h3' hbs ht]
        simp

theorem rdp_neg_id : ∀ (n : ℕ) (pts : List (ℚ × ℚ)) (eps : ℚ),
    pts.length ≤ n → eps < 0 → rdp pts eps = pts := by
  intro n
  induction n with
  | zero =>
    intro pts eps hn _
    exact rdp_short pts eps (by omega)
  | succ n ih =>
    intro pts eps hn hneg
    by_cases h3 : pts.length < 3
    · exact rdp_short pts eps h3
    · have h3' : 3 ≤ pts.length := by omega
      rcases hbs : bestSplit pts (pts.headD (0, 0)) (pts.getLastD (0, 0)) with ⟨mv, j⟩
      obtain ⟨d, rfl, u, p, v, hint, hj, hdm, hu, hv⟩ := bestSplit_spec h3' hbs
      obtain ⟨a, b, hpts', htake, hdrop, hha, hhb, hlen⟩ := split_decomp h3' hint hj
      have hTlen : (pts.take (j + 1)).length ≤ n := by
        rw [htake]
        simp only [List.length_append, List.length_cons, List.length_nil]
        omega
      have hDlen : (pts.drop j).length ≤ n := by
        rw [hdrop]
        simp only [List.length_append, List.length_cons, List.length_nil]
        omega
      rw [rdp_split h3' hbs (Or.inl hneg), ih (pts.take (j + 1)) eps hTlen hneg,
        ih (pts.drop j) eps hDlen hneg, htake, hdrop, List.dropLast_concat]
      rw [hpts']
      simp

theorem rdp_idem : ∀ (n : ℕ) (pts : List (ℚ × ℚ)) (eps : ℚ),
    pts.length ≤ n → rdp (rdp pts eps) eps = rdp pts eps := by
  intro n
  induction n with
  | zero =>
    intro pts eps hn
    have h3 : pts.length < 3 := by omega
    rw [rdp_short pts eps h3]
    exact rdp_short pts eps h3
  | succ n ih =>
    intro pts eps hn
    by_cases h3 : pts.length < 3
    · rw [rdp_short pts eps h3]
      exact rdp_short pts eps h3
    · have h3' : 3 ≤ pts.length := by omega
      rcases hbs : bestSplit pts (pts.headD (0, 0)) (pts.getLastD (0, 0)) with ⟨mv, j⟩
      obtain ⟨d, rfl, u, p, v, hint, hj, hdm, hu, hv⟩ := bestSplit_spec h3' hbs
      by_cases ht : eps < 0 ∨ eps ^ 2 < d
      · obtain ⟨a, b, hpts', htake, hdrop, hha, hhb, hlen⟩ := split_decomp h3' hint hj
        have hTlen : (pts.take (j + 1)).length ≤ n := by
          rw [htake]
          simp only [List.length_append, List.length_cons, List.length_nil]
          omega
        have hDlen : (pts.drop j).length ≤ n := by
          rw [hdrop]
          simp only [List.length_append, List.length_cons, List.length_nil]
          omega
        have hLidem := ih (pts.take (j + 1)) eps hTlen
        have hRidem := ih (pts.drop j) eps hDlen
        obtain ⟨midL, hL, hmidL⟩ := rdp_structure n (pts.take (j + 1)) eps hTlen
          (by rw [htake]; simp only [List.length_append, List.length_cons, List.length_nil]; omega)
        obtain ⟨midR, hR, hmidR⟩ := rdp_structure n (pts.drop j) eps hDlen
          (by rw [hdrop]; simp only [List.length_append, List.length_cons, List.length_nil]; omega)
        rw [htake] at hL hmidL
        rw [hdrop] at hR hmidR
        obtain ⟨hLa, hLb, hLi⟩ := decomp_accessors a p u
        rw [hLa, hLb] at hL
        rw [hLi] at hmidL
        obtain ⟨hRa, hRb, hRi⟩ := decomp_accessors p b v
        rw [hRa, hRb] at hR
        rw [hRi] at hmidR
        rw [hha, hhb] at hdm hu hv
        have hu' : ∀ q ∈ midL, psDistSq q a b < psDistSq p a b := by
          intro q hq
          rw [hdm]
          exact hu q (hmidL q hq)
        have hv' : ∀ q ∈ midR, psDistSq q a b ≤ psDistSq p a b := by
          intro q hq
          rw [hdm]
          exact hv q (hmidR q hq)
        have hout : rdp pts eps = a :: (midL ++ p :: (midR ++ [b])) := by
          rw [rdp_split h3' hbs ht, htake, hdrop, hL, hR, List.dropLast_concat]
          simp
        rw [hout]
        have hZeq : (a :: (midL ++ p :: (midR ++ [b]))) =
            ((a :: (midL ++ p :: midR)) ++ [b]) := by simp
        have hZb : (a :: (midL ++ p :: (midR ++ [b]))).getLastD (0, 0) = b := by
          rw [hZeq]
          exact (decomp_accessors a b (midL ++ p :: midR)).2.1
        have hZint : interior (a :: (midL ++ p :: (midR ++ [b]))) = midL ++ p :: midR := by
          rw [hZeq]
          exact (decomp_accessors a b (midL ++ p :: midR)).2.2
        have hZlen : 3 ≤ (a :: (midL ++ p :: (midR ++ [b]))).length := by
          simp only [List.length_cons, List.length_append, List.length_nil]
          omega
        have hbsZ : bestSplit (a :: (midL ++ p :: (midR ++ [b])))
            ((a :: (midL ++ p :: (midR ++ [b]))).headD (0, 0))
            ((a :: (midL ++ p :: (midR ++ [b]))).getLastD (0, 0)) =
            (some d, 1 + midL.length) := by
          rw [hZb]
          have hb0 := bestSplit_of_decomp a b (a :: (midL ++ p :: (midR ++ [b])))
            midL p midR hZint hu' hv'
          rw [hdm] at hb0
          exact hb0
        rw [rdp_split hZlen hbsZ ht]
        have hZtake : (a :: (midL ++ p :: (midR ++ [b]))).take (1 + midL.length + 1) =
            (a :: midL) ++ [p] := by
          rw [show 1 + midL.length + 1 = midL.length + 1 + 1 from by omega,
            List.take_succ_cons, take_decomp]
          simp
        have hZdrop : (a :: (midL ++ p :: (midR ++ [b]))).drop (1 + midL.length) =
            (p :: midR) ++ [b] := by
          rw [show 1 + midL.length = midL.length + 1 from by omega,
            List.drop_succ_cons, drop_decomp]
          simp
        rw [hZtake, hZdrop]
        rw [htake] at hLidem
        rw [hL] at hLidem
        rw [hdrop] at hRidem
        rw [hR] at hRidem
        rw [hLidem, hRidem, List.dropLast_concat]
        simp
      · rw [rdp_collapse h3' hbs ht]
        exact rdp_short _ eps (by simp)

theorem rdp_collinear (pts : List (ℚ × ℚ)) (eps : ℚ) (h2 : 2 ≤ pts.length) (he : 0 ≤ eps)
    (hcol : ∀ q ∈ interior pts, psDistSq q (pts.headD (0, 0)) (pts.getLastD (0, 0)) = 0) :
    rdp pts eps = [pts.headD (0, 0), pts.getLastD (0, 0)] := by
  by_cases h3 : pts.length < 3
  · obtain ⟨a, mid0, b, hpts⟩ := exists_decomp pts h2
    have hm0 : mid0 = [] := by
      have hl := congrArg List.length hpts
      simp only [List.length_append, List.length_cons, List.length_nil] at hl
      have : mid0.length = 0 := by omega
      exact List.length_eq_zero.mp this
    subst hm0
    rw [rdp_short pts eps h3]
    subst hpts
    simp [getLastD_concat_cons]
  · have h3' : 3 ≤ pts.length := by omega
    rcases hbs : bestSplit pts (pts.headD (0, 0)) (pts.getLastD (0, 0)) with ⟨mv, j⟩
    obtain ⟨d, rfl, u, p, v, hint, hj, hdm, hu, hv⟩ := bestSplit_spec h3' hbs
    have hp : p ∈ interior pts := by
      rw [hint]
      simp
    have hd0 : d = 0 := by
      rw [← hdm]
      exact hcol p hp
    subst hd0
    refine rdp_collapse h3' hbs ?_
    rintro (hlt | hlt)
    · exact absurd hlt (not_lt.mpr he)
    · exact absurd hlt (not_lt.mpr (sq_nonneg eps))

/-! ### Claim theorems -/

/-- C10: a no-hand tick (absent gesture set or absent keypoints) only
advances the internal frame counter: mode, shapes, selection, baselines and
stroke state are untouched, while rendering still interpolates every shape
one smoothing step towards its existing targets. -/
theorem no_hand_tick_frame_only :
    ∀ (G : Geom) (s : CState),
      (∀ p?, updateC G s Option.none p? = { s with frameIndex := s.frameIndex + 1 }) ∧
      (∀ g, updateC G s (some g) Option.none = { s with frameIndex := s.frameIndex + 1 }) ∧
      (renderTick (updateC G s Option.none Option.none)).shapes =
        s.shapes.map Shape.update := by
  intro G s
  refine ⟨fun p? => ?_, fun _ => rfl, rfl⟩
  cases p? <;> rfl

/-- C1 (evaluation of the code at the failing input): the controller never
reads `is_exit_gesture`.  An update carrying only the debounced exit signal
leaves the mode at CREATE, TRANSFORM and DRAW respectively, instead of
returning to IDLE as the claim (and the repository's own tests) demand. -/
theorem exit_gesture_ignored_eval :
    (updateC G0 { initState 1280 720 with mode := .CREATE }
        (some gExit) (some p0)).mode = .CREATE ∧
    (updateC G0 { initState 1280 720 with mode := .TRANSFORM }
        (some gExit) (some p0)).mode = .TRANSFORM ∧
    (updateC G0 { initState 1280 720 with mode := .DRAW }
        (some gExit) (some p0)).mode = .DRAW ∧
    Mode.CREATE ≠ Mode.IDLE := by
  decide

/-- C2 (evaluation of the code at the failing input): from DRAW mode, ten
consecutive open-palm frames (with the switch cooldown long elapsed) drive
the pose-based switch path and move the mode to CREATE — `_maybe_switch_mode`
has no DRAW-mode guard, contrary to the claim. -/
theorem draw_mode_pose_switch_eval :
    (runC G0 { initState 1280 720 with mode := .DRAW }
        (List.replicate 10 (gPalm, p0))).mode = .CREATE ∧
    (runC G0 { initState 1280 720 with mode := .DRAW }
        (List.replicate 9 (gPalm, p0))).mode = .DRAW ∧
    Mode.CREATE ≠ Mode.DRAW := by
  decide

/-- C3 (evaluation of the code at the failing input): in DRAW mode a single
raw three-finger frame (`is_draw_gesture` true while the debounced
`is_draw_active` is still false) starts a stroke and counts towards the
draw intent: the controller consumes the raw signal, not the debounced
one. -/
theorem raw_draw_signal_eval :
    gRawDraw.is_draw_active = false ∧
    (updateC G0 { initState 1280 720 with mode := .DRAW }
        (some gRawDraw) (some p0)).is_drawing = true ∧
    (updateC G0 { initState 1280 720 with mode := .DRAW }
        (some gRawDraw) (some p0)).current_stroke = [(0, 0)] ∧
    (updateC G0 { initState 1280 720 with mode := .DRAW }
        (some gRawDraw) (some p0)).gestureFrames = 1 := by
  decide

/-- C5: the reported pinch ratio is exactly `d / max(s, 1e-6)`, and
`is_pinching` is a Schmitt trigger: once true it stays true until the ratio
strictly exceeds `PINCH_END = 0.45`, once false it stays false until the
ratio is strictly below `PINCH_START = 0.35` — per frame and along any run
of frames. -/
theorem pinch_ratio_hysteresis :
    (∀ d s : ℚ, pinchRatioVal d s = d / max s (1 / 1000000)) ∧
    (∀ r : ℚ, pinchStep true r = false ↔ PINCH_END < r) ∧
    (∀ r : ℚ, pinchStep false r = true ↔ r < PINCH_START) ∧
    (∀ rs : List ℚ, (∀ r ∈ rs, r ≤ PINCH_END) → rs.foldl pinchStep true = true) ∧
    (∀ rs : List ℚ, (∀ r ∈ rs, PINCH_START ≤ r) → rs.foldl pinchStep false = false) := by
  refine ⟨fun d s => rfl, fun r => ?_, fun r => ?_, fun rs h => ?_, fun rs h => ?_⟩
  · simp [pinchStep]
  · simp [pinchStep]
  · induction rs with
    | nil => rfl
    | cons r rest ih =>
      have hr : r ≤ PINCH_END := h r (by simp)
      have hstep : pinchStep true r = true := by
        simp [pinchStep, not_lt.mpr hr]
      simp only [List.foldl_cons, hstep]
      exact ih fun x hx => h x (by simp [hx])
  · induction rs with
    | nil => rfl
    | cons r rest ih =>
      have hr : PINCH_START ≤ r := h r (by simp)
      have hstep : pinchStep false r = false := by
        simp [pinchStep, not_lt.mpr hr]
      simp only [List.foldl_cons, hstep]
      exact ih fun x hx => h x (by simp [hx])

/-- C6 counterexample: with a *recorded* base pinch of `0.0` (a legal value:
`pinch_ratio` is `0` when thumb and index tips coincide) and a current
ratio of `1/2`, well above the `1e-6` guard, the code leaves the target
size untouched (Python float truthiness skips the scale step), while the
claim demands `clamp(100 × (0 / (1/2)), 20, 600) = 20`. -/
theorem transform_scale_zero_base_counterexample :
    sBasePinchZero.base_pinch = some 0 ∧
    gHalfPinch.pinch_ratio_v.getD 0 > 1 / 1000000 ∧
    targetSizeAt (applyTransform G0 sBasePinchZero gHalfPinch p0) 0 = some 150 ∧
    clamp (100 * (0 / (1 / 2))) 20 600 = 20 ∧
    (150 : ℚ) ≠ 20 := by
  refine ⟨rfl, by norm_num [gHalfPinch, GestureSet.none], ?_, by norm_num [clamp],
    by norm_num⟩
  simp [targetSizeAt, applyTransform, sBasePinchZero, initState, mkShape2D, qTruthy,
    listSet, gHalfPinch, GestureSet.none, padd, G0]

/-- C6 (amended): while a shape is selected in TRANSFORM mode, on every
frame where a *nonzero* base pinch was recorded and the current
`pinch_ratio` exceeds the `1e-6` guard, the selected shape's target size is
set to `clamp(base_size × (base_pinch / current_pinch), 20, 600)`. -/
theorem transform_scale_clamp :
    ∀ (G : Geom) (s : CState) (g : GestureSet) (p : Pts) (i : ℕ) (b0 : Shape2D)
      (bp bs pr : ℚ),
      s.selected = some i →
      s.shapes.get? i = some (.box b0) →
      s.base_pinch = some bp → bp ≠ 0 →
      s.base_size = some bs →
      g.pinch_ratio_v.getD 0 = pr → pr > 1 / 1000000 →
      targetSizeAt (applyTransform G s g p) i =
        some (clamp (bs * (bp / pr)) 20 600) := by
  intro G s g p i b0 bp bs pr hsel hget hbp hbp0 hbs hpr hprg
  have hq : qTruthy s.base_pinch = true := by simp [qTruthy, hbp, hbp0]
  have hcond : (qTruthy s.base_pinch = true ∧ g.pinch_ratio_v.getD 0 > 1 / 1000000) := by
    exact ⟨hq, by rw [hpr]; exact hprg⟩
  simp only [applyTransform, hsel, hget, targetSizeAt]
  rw [if_pos hcond]
  by_cases htf : g.is_two_finger_point = true
  · rw [if_pos htf]
    rw [listSet_get?_self _ hget]
    simp [hbp, hbs, hpr]
  · rw [if_neg htf]
    rw [listSet_get?_self _ hget]
    simp [hbp, hbs, hpr]

/-- C6 witness: the specification's worked example — `base_size = 100`,
`base_pinch = 0.5`, current `pinch_ratio = 0.25` — yields target size
`200`. -/
theorem transform_scale_clamp_witness :
    targetSizeAt (applyTransform G0 sBaseHalf gQuarterPinch p0) 0 = some 200 := by
  have h := transform_scale_clamp G0 sBaseHalf gQuarterPinch p0 0
    (mkShape2D (1280 / 2, 720 / 2) 150 (255, 100, 50)) (1 / 2) 100 (1 / 4)
    rfl rfl rfl (by norm_num) rfl rfl (by norm_num)
  rw [h]
  norm_num [clamp]

/-- C8 counterexample: at the exact half-turn tie (angle 180, target 0) the
code keeps the delta `−180` (its docstring says "[-180, 180]") and lands at
angle `117`, while normalizing into the claim's `(−180, 180]` would pick
`+180` and land at `243`; moreover for a raw delta of `900` (reachable,
since `target_angle` is unbounded) the single-shift normalization returns
`540`, which is not a shortest signed delta at all. -/
theorem angle_tie_counterexample :
    bAngle180.update.angle = 117 ∧
    specNormIoc (bAngle180.target_angle - bAngle180.angle) = 180 ∧
    wrap360 (bAngle180.angle +
      specNormIoc (bAngle180.target_angle - bAngle180.angle) * SMOOTHING) = 243 ∧
    (117 : ℚ) ≠ 243 ∧
    normalize_angle 900 = 540 ∧
    ¬ ((-180 : ℚ) ≤ 540 ∧ (540 : ℚ) ≤ 180) := by
  have hceil : specNormIoc (bAngle180.target_angle - bAngle180.angle) = 180 := by
    have h1 : bAngle180.target_angle - bAngle180.angle = -180 := by norm_num [bAngle180]
    rw [h1]
    unfold specNormIoc
    rw [show (((-180) : ℚ) - 180) / 360 = ((-1 : ℤ) : ℚ) by norm_num, Int.ceil_intCast]
    norm_num
  refine ⟨?_, hceil, ?_, by norm_num, ?_, by norm_num⟩
  · norm_num [bAngle180, Shape2D.update, normalize_angle, wrap360, SMOOTHING]
  · rw [hceil]
    norm_num [bAngle180, wrap360, SMOOTHING]
  · norm_num [normalize_angle]

/-- C8 (amended): whenever the raw delta `target_angle − angle` lies within
one full turn, `Shape2D.update` moves the angle by `SMOOTHING = 0.35` of a
delta normalized to a shortest signed representative in `[−180, 180]`
(the tie at ±180 keeps the raw sign: `−180` stays `−180`), and the
resulting angle is re-wrapped into `[0, 360)` — so the angle never
interpolates the long way around the 0/360 boundary. -/
theorem angle_shortest_path :
    ∀ a t : ℚ, -360 ≤ t - a → t - a ≤ 360 →
      ((-180 ≤ normalize_angle (t - a) ∧ normalize_angle (t - a) ≤ 180) ∧
        |normalize_angle (t - a)| ≤ 180) ∧
      (∃ k : ℤ, normalize_angle (t - a) = (t - a) + 360 * k) ∧
      (∀ s : Shape2D, s.angle = a → s.target_angle = t →
        s.update.angle = wrap360 (a + normalize_angle (t - a) * SMOOTHING)) ∧
      (0 ≤ wrap360 (a + normalize_angle (t - a) * SMOOTHING) ∧
        wrap360 (a + normalize_angle (t - a) * SMOOTHING) < 360) := by
  intro a t hlo hhi
  have hbounds : -180 ≤ normalize_angle (t - a) ∧ normalize_angle (t - a) ≤ 180 := by
    simp only [normalize_angle]
    split_ifs with h1 h2 h3 <;> constructor <;> linarith
  have hcong : ∃ k : ℤ, normalize_angle (t - a) = (t - a) + 360 * k := by
    simp only [normalize_angle]
    split_ifs with h1 h2 h3
    · exact ⟨0, by push_cast; ring⟩
    · exact ⟨-1, by push_cast; ring⟩
    · exact ⟨1, by push_cast; ring⟩
    · exact ⟨0, by push_cast; ring⟩
  refine ⟨⟨hbounds, abs_le.mpr hbounds⟩, hcong, fun s ha ht => ?_, ?_, ?_⟩
  · show wrap360 (s.angle + normalize_angle (s.target_angle - s.angle) * SMOOTHING) = _
    rw [ha, ht]
  · have := Int.floor_le ((a + normalize_angle (t - a) * SMOOTHING) / 360)
    unfold wrap360
    nlinarith [this]
  · have := Int.lt_floor_add_one ((a + normalize_angle (t - a) * SMOOTHING) / 360)
    unfold wrap360
    nlinarith [this]

/-- C8 witness: a small positive delta passes through unchanged and the
result stays in `[0, 360)`. -/
theorem angle_shortest_path_witness :
    ((-180 ≤ normalize_angle ((90 : ℚ) - 0) ∧ normalize_angle ((90 : ℚ) - 0) ≤ 180) ∧
      |normalize_angle ((90 : ℚ) - 0)| ≤ 180) ∧
    (∃ k : ℤ, normalize_angle ((90 : ℚ) - 0) = ((90 : ℚ) - 0) + 360 * k) ∧
    (∀ s : Shape2D, s.angle = 0 → s.target_angle = 90 →
      s.update.angle = wrap360 (0 + normalize_angle ((90 : ℚ) - 0) * SMOOTHING)) ∧
    (0 ≤ wrap360 ((0 : ℚ) + normalize_angle ((90 : ℚ) - 0) * SMOOTHING) ∧
      wrap360 ((0 : ℚ) + normalize_angle ((90 : ℚ) - 0) * SMOOTHING) < 360) :=
  angle_shortest_path 0 90 (by norm_num) (by norm_num)

/-- C9: in every controller state reachable from the initial state by any
sequence of `update` calls, a selected shape exists only while the mode is
TRANSFORM, and whenever no shape is selected every transform-baseline field
(grab offset, base size, base pinch, base shape angle, base finger angle)
is cleared. -/
theorem selection_baseline_invariant :
    ∀ (G : Geom) (s : CState), Reachable G s → SelInv s := by
  intro G s h
  induction h with
  | init w h => exact ⟨by simp [initState], by simp [initState]⟩
  | step s g? p? _ ih => exact selInv_update G ih g? p?

/-- C9 witness: the invariant holds at the freshly constructed controller. -/
theorem selection_baseline_invariant_witness : SelInv (initState 1280 720) :=
  selection_baseline_invariant G0 (initState 1280 720) (Reachable.init 1280 720)

/-- C4: a pose-based mode switch fires only when the same persistent-gesture
label has been held for `DEBOUNCE_FRAMES = 10` consecutive hand frames AND at
least `MODE_COOLDOWN_FRAMES = 30` frames have elapsed since the last switch.
Part 1: when the double gate passes, a label targeting the already-active
mode returns the controller to IDLE, a different target switches directly to
it, the selection with its baselines is cleared whenever the new mode is not
TRANSFORM, the stroke state is cleared whenever the new mode is not DRAW,
and the switch frame is stamped.  Part 2 ("only when"): any mode change in
`_maybe_switch_mode` implies both gates passed.  Part 3: along any run of
hand frames from the initial state the hold counter never exceeds the length
of the trailing run of equal labels, so a counter of 10 really means 10
consecutive frames of the same label.  `StrokeInv` records stroke facts that
hold in every state reachable under interpreter-consistent gesture sets
(see `poses_exclusive`); it is satisfied e.g. by `sFire` (see the witness). -/
theorem pose_switch_double_gate :
    (∀ (s : CState) (g : GestureSet) (lbl : GLabel),
      StrokeInv s →
      persistentLabel g = some lbl →
      (if persistentLabel g = s.lastGesture then s.gestureFrames + 1 else 1) ≥
        DEBOUNCE_FRAMES →
      s.frameIndex - s.lastModeSwitchFrame ≥ MODE_COOLDOWN_FRAMES →
      (maybeSwitchMode s g).mode =
        (if targetMode lbl = s.mode then Mode.IDLE else targetMode lbl) ∧
      ((maybeSwitchMode s g).mode ≠ Mode.TRANSFORM →
        (maybeSwitchMode s g).selected = Option.none) ∧
      ((maybeSwitchMode s g).mode ≠ Mode.DRAW →
        (maybeSwitchMode s g).current_stroke = [] ∧
        (maybeSwitchMode s g).is_drawing = false) ∧
      (maybeSwitchMode s g).lastModeSwitchFrame = s.frameIndex) ∧
    (∀ (s : CState) (g : GestureSet),
      (maybeSwitchMode s g).mode ≠ s.mode →
      ∃ lbl, persistentLabel g = some lbl ∧
        (if persistentLabel g = s.lastGesture then s.gestureFrames + 1 else 1) ≥
          DEBOUNCE_FRAMES ∧
        s.frameIndex - s.lastModeSwitchFrame ≥ MODE_COOLDOWN_FRAMES) ∧
    (∀ (G : Geom) (frames : List (GestureSet × Pts)),
      (runC G (initState 1280 720) frames).lastGesture =
        (labelRun (frames.map Prod.fst)).1 ∧
      (runC G (initState 1280 720) frames).gestureFrames ≤
        (labelRun (frames.map Prod.fst)).2) := by
  refine ⟨?_, ?_, ?_⟩
  · intro s g lbl hinv hl hcnt hcool
    by_cases hlast : persistentLabel g = s.lastGesture
    swap
    · rw [if_neg hlast] at hcnt
      exact absurd hcnt (by decide)
    · rw [if_pos hlast] at hcnt
      have hsl : (some lbl : Option GLabel) = s.lastGesture := hl.symm.trans hlast
      rw [maybeSwitchMode_eq_some hl rfl]
      rw [if_neg (not_not_intro hsl)]
      rw [if_pos (⟨hcnt, hcool⟩ :
        s.gestureFrames + 1 ≥ DEBOUNCE_FRAMES ∧
        s.frameIndex - s.lastModeSwitchFrame ≥ MODE_COOLDOWN_FRAMES)]
      set T : CState := { s with gestureFrames := s.gestureFrames + 1 } with hTdef
      have hTmode : T.mode = s.mode := rfl
      have hcase : T.current_stroke = [] ∨
          (if T.mode = targetMode lbl then Mode.IDLE else targetMode lbl) = Mode.IDLE ∨
          (if T.mode = targetMode lbl then Mode.IDLE else targetMode lbl) = Mode.DRAW := by
        by_cases hsame : T.mode = targetMode lbl
        · exact Or.inr (Or.inl (if_pos hsame))
        · cases lbl with
          | draw => exact Or.inr (Or.inr (if_neg hsame))
          | open_palm =>
            refine Or.inl (show s.current_stroke = [] from stroke_empty_of_inv hinv ?_)
            by_cases hm : s.mode = Mode.DRAW
            · refine Or.inr ⟨?_, Or.inl hsl.symm⟩
              have hD : DEBOUNCE_FRAMES = 10 := rfl
              omega
            · exact Or.inl hm
          | pointing =>
            refine Or.inl (show s.current_stroke = [] from stroke_empty_of_inv hinv ?_)
            by_cases hm : s.mode = Mode.DRAW
            · refine Or.inr ⟨?_, Or.inr hsl.symm⟩
              have hD : DEBOUNCE_FRAMES = 10 := rfl
              omega
            · exact Or.inl hm
      have hmode_eq : (toggleMode T (targetMode lbl)).mode =
          (if T.mode = targetMode lbl then Mode.IDLE else targetMode lbl) :=
        toggleMode_mode T (targetMode lbl) hcase
      rw [hTmode] at hmode_eq
      refine ⟨?_, ?_, ?_, ?_⟩
      · refine hmode_eq.trans ?_
        by_cases hsame : s.mode = targetMode lbl
        · rw [if_pos hsame, if_pos hsame.symm]
        · rw [if_neg hsame, if_neg (fun hx => hsame hx.symm)]
      · by_cases hite : (if s.mode = targetMode lbl then Mode.IDLE else targetMode lbl) =
            Mode.TRANSFORM
        · intro hx
          exact absurd (hmode_eq.trans hite) hx
        · intro _
          exact (toggleMode_clears_selection T (targetMode lbl)
            (by rw [hTmode]; exact hite)).1
      · by_cases hite : (if s.mode = targetMode lbl then Mode.IDLE else targetMode lbl) =
            Mode.DRAW
        · intro hx
          exact absurd (hmode_eq.trans hite) hx
        · intro _
          exact toggleMode_clears_stroke T (targetMode lbl)
            (by rw [hTmode]; exact hite)
      · exact (toggleMode_counters T (targetMode lbl)).1
  · intro s g hmode
    cases hl : persistentLabel g with
    | none =>
      exfalso
      apply hmode
      rw [maybeSwitchMode_eq_none hl]
      split_ifs <;> rfl
    | some lbl =>
      by_cases hlast : persistentLabel g = s.lastGesture
      · have hsl : (some lbl : Option GLabel) = s.lastGesture := hl.symm.trans hlast
        rw [maybeSwitchMode_eq_some hl rfl, if_neg (not_not_intro hsl)] at hmode
        by_cases hfire : s.gestureFrames + 1 ≥ DEBOUNCE_FRAMES ∧
            s.frameIndex - s.lastModeSwitchFrame ≥ MODE_COOLDOWN_FRAMES
        · exact ⟨lbl, rfl, by rw [if_pos hsl]; exact hfire.1, hfire.2⟩
        · rw [if_neg hfire] at hmode
          exact absurd rfl hmode
      · have hsl : (some lbl : Option GLabel) ≠ s.lastGesture := by
          intro hx
          exact hlast (hl.trans hx)
        rw [maybeSwitchMode_eq_some hl rfl, if_pos hsl] at hmode
        rw [if_neg (fun hcon =>
          absurd (hcon.1 : (1 : ℕ) ≥ DEBOUNCE_FRAMES) (by decide))] at hmode
        exact absurd rfl hmode
  · intro G frames
    exact runC_label_counter G frames (initState 1280 720) (Option.none, 0) rfl le_rfl

/-- C4 witness: an IDLE state that has held open palm for 9 frames with the
cooldown elapsed fires on the 10th open-palm frame and switches to CREATE,
stamping the switch frame. -/
theorem pose_switch_double_gate_witness :
    (maybeSwitchMode sFire gPalm).mode = Mode.CREATE ∧
    (maybeSwitchMode sFire gPalm).lastModeSwitchFrame = 40 := by
  obtain ⟨h1, h2, h3, h4⟩ := pose_switch_double_gate.1 sFire gPalm GLabel.open_palm
    (by refine ⟨?_, ?_, ?_⟩ <;> simp [sFire, initState, StrokeInv])
    rfl (by decide) (by decide)
  constructor
  · rw [h1]
    rfl
  · rw [h4]
    rfl

/-- C5 witness: a run held at the thresholds keeps each hysteresis state. -/
theorem pinch_ratio_hysteresis_witness :
    ([(2 : ℚ) / 5, 9 / 20].foldl pinchStep true = true) ∧
    ([(2 : ℚ) / 5, 7 / 20].foldl pinchStep false = false) := by
  constructor
  · exact pinch_ratio_hysteresis.2.2.2.1 [2 / 5, 9 / 20] (by
      intro r hr
      simp only [List.mem_cons, List.mem_singleton] at hr
      rcases hr with rfl | rfl | h
      · norm_num [PINCH_END]
      · norm_num [PINCH_END]
      · simp at h)
  · exact pinch_ratio_hysteresis.2.2.2.2 [2 / 5, 7 / 20] (by
      intro r hr
      simp only [List.mem_cons, List.mem_singleton] at hr
      rcases hr with rfl | rfl | h
      · norm_num [PINCH_START]
      · norm_num [PINCH_START]
      · simp at h)

/-- C7 counterexample: `epsilon = 0` is not a no-op — the strict test
`max_dist > epsilon` collapses every interior point that lies exactly on the
first-to-last chord, so the three collinear points `(0,0), (1,0), (2,0)` are
simplified to just the two endpoints; and collinear points out of order along
the chord are not reduced to the two endpoints even with `epsilon = 1 > 0`,
because the middle point `(10,0)` lies beyond the chord segment from `(0,0)`
to `(2,0)` and so has a large point-to-segment distance. -/
theorem rdp_noop_counterexample :
    rdp [((0 : ℚ), (0 : ℚ)), ((1 : ℚ), (0 : ℚ)), ((2 : ℚ), (0 : ℚ))] 0 =
      [((0 : ℚ), (0 : ℚ)), ((2 : ℚ), (0 : ℚ))] ∧
    rdp [((0 : ℚ), (0 : ℚ)), ((10 : ℚ), (0 : ℚ)), ((2 : ℚ), (0 : ℚ))] 1 =
      [((0 : ℚ), (0 : ℚ)), ((10 : ℚ), (0 : ℚ)), ((2 : ℚ), (0 : ℚ))] := by
  constructor
  · have hbs : bestSplit [((0 : ℚ), (0 : ℚ)), ((1 : ℚ), (0 : ℚ)), ((2 : ℚ), (0 : ℚ))]
        ((0 : ℚ), (0 : ℚ)) ((2 : ℚ), (0 : ℚ)) = (some 0, 1) := by
      norm_num [bestSplit, bestSplitAux, interior, psDistSq, distSq, clamp, min_def, max_def]
    exact rdp_collapse (by simp) hbs (by norm_num)
  · have hbs : bestSplit [((0 : ℚ), (0 : ℚ)), ((10 : ℚ), (0 : ℚ)), ((2 : ℚ), (0 : ℚ))]
        ((0 : ℚ), (0 : ℚ)) ((2 : ℚ), (0 : ℚ)) = (some 64, 1) := by
      norm_num [bestSplit, bestSplitAux, interior, psDistSq, distSq, clamp, min_def, max_def]
    rw [rdp_split (by simp) hbs (Or.inr (by norm_num))]
    rw [rdp_short ([((0 : ℚ), (0 : ℚ)), ((10 : ℚ), (0 : ℚ)), ((2 : ℚ), (0 : ℚ))].take (1 + 1)) 1
      (by simp)]
    rw [rdp_short ([((0 : ℚ), (0 : ℚ)), ((10 : ℚ), (0 : ℚ)), ((2 : ℚ), (0 : ℚ))].drop 1) 1
      (by simp)]
    rfl

/-- C7 (amended): properties of `features.rdp`.  (1) On any polyline of at
least two points whose interior points all lie exactly on the segment from
the first point to the last (point-to-segment distance `0`), any
`epsilon ≥ 0` — not only `epsilon > 0`, since the split test
`max_dist > epsilon` is strict — yields exactly the two endpoints.
(2) With `epsilon < 0` the simplification is the identity (every split is
taken all the way down to pairs, which reassemble to the input); `epsilon = 0`
is NOT a no-op (see the counterexample).  (3) `rdp` is idempotent: re-running
it on its own output with the same epsilon returns the output unchanged. -/
theorem rdp_endpoint_noop_idempotent :
    (∀ (pts : List (ℚ × ℚ)) (eps : ℚ), 2 ≤ pts.length → 0 ≤ eps →
      (∀ q ∈ interior pts, psDistSq q (pts.headD (0, 0)) (pts.getLastD (0, 0)) = 0) →
      rdp pts eps = [pts.headD (0, 0), pts.getLastD (0, 0)]) ∧
    (∀ (pts : List (ℚ × ℚ)) (eps : ℚ), eps < 0 → rdp pts eps = pts) ∧
    (∀ (pts : List (ℚ × ℚ)) (eps : ℚ), rdp (rdp pts eps) eps = rdp pts eps) :=
  ⟨rdp_collinear,
   fun pts eps h => rdp_neg_id pts.length pts eps le_rfl h,
   fun pts eps => rdp_idem pts.length pts eps le_rfl⟩

/-- C7 witness: the three properties evaluated on concrete polylines — the
on-chord points `(0,0), (1,0), (2,0)` collapse to the endpoints at
`epsilon = 1`; a genuine corner survives a negative epsilon unchanged; and
re-simplifying a simplified stroke is a no-op. -/
theorem rdp_endpoint_noop_idempotent_witness :
    rdp [((0 : ℚ), (0 : ℚ)), ((1 : ℚ), (0 : ℚ)), ((2 : ℚ), (0 : ℚ))] 1 =
      [((0 : ℚ), (0 : ℚ)), ((2 : ℚ), (0 : ℚ))] ∧
    rdp [((0 : ℚ), (0 : ℚ)), ((5 : ℚ), (3 : ℚ)), ((2 : ℚ), (0 : ℚ))] (-1) =
      [((0 : ℚ), (0 : ℚ)), ((5 : ℚ), (3 : ℚ)), ((2 : ℚ), (0 : ℚ))] ∧
    rdp (rdp [((0 : ℚ), (0 : ℚ)), ((5 : ℚ), (3 : ℚ)), ((2 : ℚ), (0 : ℚ))] 1) 1 =
      rdp [((0 : ℚ), (0 : ℚ)), ((5 : ℚ), (3 : ℚ)), ((2 : ℚ), (0 : ℚ))] 1 := by
  refine ⟨?_, ?_, ?_⟩
  · have hcol : ∀ q ∈ interior [((0 : ℚ), (0 : ℚ)), ((1 : ℚ), (0 : ℚ)), ((2 : ℚ), (0 : ℚ))],
        psDistSq q
          ([((0 : ℚ), (0 : ℚ)), ((1 : ℚ), (0 : ℚ)), ((2 : ℚ), (0 : ℚ))].headD (0, 0))
          ([((0 : ℚ), (0 : ℚ)), ((1 : ℚ), (0 : ℚ)), ((2 : ℚ), (0 : ℚ))].getLastD (0, 0)) = 0 := by
      intro q hq
      simp [interior] at hq
      subst hq
      norm_num [psDistSq, distSq, clamp, min_def, max_def]
    exact rdp_endpoint_noop_idempotent.1
      [((0 : ℚ), (0 : ℚ)), ((1 : ℚ), (0 : ℚ)), ((2 : ℚ), (0 : ℚ))] 1 (by simp) (by norm_num) hcol
  · exact rdp_endpoint_noop_idempotent.2.1
      [((0 : ℚ), (0 : ℚ)), ((5 : ℚ), (3 : ℚ)), ((2 : ℚ), (0 : ℚ))] (-1) (by norm_num)
  · exact rdp_endpoint_noop_idempotent.2.2
      [((0 : ℚ), (0 : ℚ)), ((5 : ℚ), (3 : ℚ)), ((2 : ℚ), (0 : ℚ))] 1

end ShapeIt
